import Mathlib

/-!
Verification development for the tree-visualization core of the repository:
the snapshot data structure (reasoners/visualization/tree_snapshot.py), the
algorithm-result-to-snapshot adapters and the encoder
(reasoners/visualization/tree_log.py).

Python dictionaries are modelled as association lists in insertion order
(updating an existing key keeps its position, a new key is appended), Python
sets as duplicate-free lists in insertion order, and Python exceptions as an
explicit error type threaded through Except.  Numeric values (rewards, Q
estimates) are modelled as rationals.
-/

/-- Error taxonomy of the visualization core.  Constructors correspond to the
Python exceptions raised by the source: structuralError to the AssertionError
of TreeSnapshot construction, notFound to a KeyError on the node or edge
dictionaries, rootHasNoParent to a KeyError on the parent dictionary,
unsupportedStateType to the TypeError raised with an explanatory message by
the default node-data factories, typeError to the TypeError raised by
unpacking a None reward-detail mapping, attributeError to an AttributeError
on a missing node field, indexError to an IndexError on list indexing. -/
inductive VizError where
  | structuralError
  | notFound
  | rootHasNoParent
  | unsupportedStateType
  | typeError
  | attributeError
  | indexError
deriving DecidableEq, Repr

/-- A primitive value stored in a node-data or edge-data mapping. -/
inductive JVal where
  | num (q : Rat)
  | str (s : String)
deriving DecidableEq, Repr

/-- A dictionary key of a node-data mapping: Python allows both string keys
(named fields, generic mappings) and integer keys (the enumerate case). -/
inductive DKey where
  | ks (s : String)
  | kn (n : Nat)
deriving DecidableEq, Repr

/-- Insert into an insertion-ordered dictionary, Python style: an existing
key keeps its position and gets the new value, a fresh key is appended. -/
def dinsert [DecidableEq k] (d : List (k × a)) (key : k) (v : a) : List (k × a) :=
  if d.any (fun p => decide (p.1 = key)) then
    d.map (fun p => if p.1 = key then (key, v) else p)
  else
    d ++ [(key, v)]

/-- Dictionary lookup: the value of the first entry with the given key. -/
def dlookup [DecidableEq k] (d : List (k × a)) (key : k) : Option a :=
  (d.find? (fun p => decide (p.1 = key))).map Prod.snd

/-- Build a dictionary from a list, keyed by a function, Python style
(later entries with the same key overwrite, first position is kept):
models dict comprehensions such as the node.id and edge.id keyed dicts. -/
def dictBy [DecidableEq k] (f : a → k) (l : List a) : List (k × a) :=
  l.foldl (fun d x => dinsert d (f x) x) []

/-- Node-data mapping (display attributes of one node). -/
abbrev NodeData := List (DKey × JVal)

/-- Edge-data mapping (display attributes of one edge). -/
abbrev EdgeData := List (String × JVal)

/-- TreeSnapshot.Node of tree_snapshot.py: id, data and an optional
selected edge (None until the highlighting pass sets it). -/
structure TreeSnapshot.Node where
  id : Nat
  data : NodeData
  selected_edge : Option Nat
deriving DecidableEq, Repr

/-- TreeSnapshot.Edge of tree_snapshot.py: id, source node, target node
and a data mapping. -/
structure TreeSnapshot.Edge where
  id : Nat
  source : Nat
  target : Nat
  data : EdgeData
deriving DecidableEq, Repr

/-- A TreeSnapshot object: the node and edge dictionaries plus the derived
parent and children indices built by TreeSnapshot.init. -/
structure TreeSnapshot where
  nodes : List (Nat × TreeSnapshot.Node)
  edges : List (Nat × TreeSnapshot.Edge)
  parentD : List (Nat × Nat)
  childrenD : List (Nat × List Nat)
deriving DecidableEq, Repr

/-- The parent dictionary built in TreeSnapshot construction: for each edge
in input order, parent of edge.target becomes edge.source (later edges with
the same target overwrite earlier ones). -/
def parentDict (es : List TreeSnapshot.Edge) : List (Nat × Nat) :=
  es.foldl (fun d e => dinsert d e.target e.source) []

/-- Add a child to a children set (a duplicate-free insertion-ordered list). -/
def cadd (d : List (Nat × List Nat)) (key v : Nat) : List (Nat × List Nat) :=
  if d.any (fun p => decide (p.1 = key)) then
    d.map (fun p => if p.1 = key then (p.1, if p.2.contains v then p.2 else p.2 ++ [v]) else p)
  else
    d ++ [(key, [v])]

/-- The children dictionary built in TreeSnapshot construction. -/
def childrenDict (es : List TreeSnapshot.Edge) : List (Nat × List Nat) :=
  es.foldl (fun d e => cadd d e.source e.target) []

/-- Children of a node in the children dictionary; empty for nodes with no
entry, modelling the defaultdict of sets. -/
def childrenOfD (cd : List (Nat × List Nat)) (n : Nat) : List Nat :=
  (dlookup cd n).getD []

/-- One step of the connectedness scan of TreeSnapshot, modelling the while
loop of the private connectivity method: pop the most recently pushed node
(Python list.pop takes the last element, so the queue is a stack, modelled
here with its top at the head), mark it visited, and push its not yet
visited children.  Fuel bounds the recursion; the surrounding code always
supplies enough fuel for the loop to drain the stack. -/
def scanStep (cd : List (Nat × List Nat)) : Nat → List Nat → List Nat → List Nat
  | 0, visited, _ => visited
  | _ + 1, visited, [] => visited
  | fuel + 1, visited, node :: stack =>
      let visited2 := if visited.contains node then visited else visited ++ [node]
      let fresh := (childrenOfD cd node).filter (fun c => !(visited2.contains c))
      scanStep cd fuel visited2 (fresh.reverse ++ stack)

/-- Fuel sufficient for the scan to drain its stack: each child entry can be
pushed only while unvisited, so the number of loop iterations is bounded by
the initial stack plus the total number of child entries, squared for slack. -/
def scanFuel (nodesD : List (Nat × TreeSnapshot.Node)) (cd : List (Nat × List Nat)) : Nat :=
  (nodesD.length + (cd.map (fun p => p.2.length)).sum + 2) *
    (nodesD.length + (cd.map (fun p => p.2.length)).sum + 2)

/-- The connectedness check of TreeSnapshot: scan from the first key of the
node dictionary (the arbitrary start node obtained from next(iter(...)))
following only child links, and accept when the number of visited nodes
equals the number of nodes.  Unreachable for an empty node dictionary, since
the parent-count assertion fails first; false is returned in that case. -/
def tsConnected (nodesD : List (Nat × TreeSnapshot.Node)) (cd : List (Nat × List Nat)) : Bool :=
  match nodesD with
  | [] => false
  | (key, _) :: _ => (scanStep cd (scanFuel nodesD cd) [] [key]).length == nodesD.length

/-- TreeSnapshot construction (the Python initializer): build the node and
edge dictionaries and the parent and children indices, then assert that the
parent dictionary has one entry fewer than the node dictionary and that the
connectedness scan visits every node; a failed assertion is the
StructuralError of the spec and no object is returned. -/
def TreeSnapshot.init (ns : List TreeSnapshot.Node) (es : List TreeSnapshot.Edge) :
    Except VizError TreeSnapshot :=
  let nodesD := dictBy TreeSnapshot.Node.id ns
  let edgesD := dictBy TreeSnapshot.Edge.id es
  let pd := parentDict es
  let cd := childrenDict es
  if (pd.length : Int) = (nodesD.length : Int) - 1 then
    if tsConnected nodesD cd then
      .ok ⟨nodesD, edgesD, pd, cd⟩
    else
      .error .structuralError
  else
    .error .structuralError

/-- Accessor node(id): dictionary lookup, KeyError (NotFound) when absent. -/
def TreeSnapshot.node (s : TreeSnapshot) (nid : Nat) : Except VizError TreeSnapshot.Node :=
  match dlookup s.nodes nid with
  | some n => .ok n
  | none => .error .notFound

/-- Accessor edge(id): dictionary lookup, KeyError (NotFound) when absent. -/
def TreeSnapshot.edge (s : TreeSnapshot) (eid : Nat) : Except VizError TreeSnapshot.Edge :=
  match dlookup s.edges eid with
  | some e => .ok e
  | none => .error .notFound

/-- Accessor out_edges(id): all edges of the edge dictionary, in insertion
order, whose source is the given node. -/
def TreeSnapshot.out_edges (s : TreeSnapshot) (nid : Nat) : List TreeSnapshot.Edge :=
  (s.edges.map Prod.snd).filter (fun e => decide (e.source = nid))

/-- Accessor in_edges(id): all edges of the edge dictionary, in insertion
order, whose target is the given node. -/
def TreeSnapshot.in_edges (s : TreeSnapshot) (nid : Nat) : List TreeSnapshot.Edge :=
  (s.edges.map Prod.snd).filter (fun e => decide (e.target = nid))

/-- Accessor parent(id): lookup in the parent dictionary; the KeyError on a
node with no entry is the RootHasNoParent of the spec. -/
def TreeSnapshot.parent (s : TreeSnapshot) (nid : Nat) : Except VizError Nat :=
  match dlookup s.parentD nid with
  | some p => .ok p
  | none => .error .rootHasNoParent

/-- Accessor children(id): the children set of the node, empty when the node
has none (defaultdict behaviour). -/
def TreeSnapshot.children (s : TreeSnapshot) (nid : Nat) : List Nat :=
  childrenOfD s.childrenD nid

/-- Modelled from the spec: the opaque state payload of an algorithm node
(the classes of reasoners.algorithm are not part of the given sources).
Following section 9 of the spec, a state value is one of: absent or None
(the none constructor), a record exposing named-field access (a NamedTuple,
whose asdict gives a string-keyed mapping), an ordered sequence (a list),
a generic key-value mapping convertible with dict, or an opaque value with
none of these capabilities (the other constructor), for which dict raises
TypeError. -/
inductive StateVal where
  | none
  | record (fields : List (String × JVal))
  | seq (items : List JVal)
  | mapping (kvs : List (String × JVal))
  | other
deriving DecidableEq, Repr

/-- Python truthiness of a state value: None, an empty sequence, an empty
mapping and a record with no fields are falsy; an opaque object is truthy. -/
def StateVal.falsy : StateVal → Bool
  | .none => true
  | .record fields => fields.isEmpty
  | .seq items => items.isEmpty
  | .mapping kvs => kvs.isEmpty
  | .other => false

/-- Turn a string-keyed association list into a Python dict (unique keys,
insertion order, later values overwrite). -/
def pyDictS (kvs : List (String × JVal)) : NodeData :=
  kvs.foldl (fun d p => dinsert d (DKey.ks p.1) p.2) []

/-- The shared body of the three identical default node-data factories of
tree_log.py: a falsy state yields an empty mapping; otherwise a record is
converted through named-field access, a list through position-index keys,
a mapping through dict, and any other state raises the TypeError whose
message asks for a caller-supplied factory (UnsupportedStateType). -/
def state_to_data (st : StateVal) : Except VizError NodeData :=
  if st.falsy then .ok []
  else
    match st with
    | .none => .ok []
    | .record fields => .ok (pyDictS fields)
    | .seq items => .ok (items.enum.map (fun p => (DKey.kn p.1, p.2)))
    | .mapping kvs => .ok (pyDictS kvs)
    | .other => .error .unsupportedStateType

/-- Modelled from the spec: an MCTS algorithm node (reasoners.algorithm is
not part of the given sources).  Per the spec input contract it exposes an
id, an optional state, a children collection that may be entirely absent
(None, as opposed to present but empty), and optional Q, reward and
reward-detail fields; an Option none models an absent attribute, for which
attribute access raises AttributeError and hasattr is false. -/
inductive MCTSNode where
  | mk (id : Nat) (state : StateVal) (children : Option (List MCTSNode))
      (q : Option Rat) (reward : Option Rat)
      (reward_details : Option (List (String × Rat)))
      (fast_reward_details : Option (List (String × Rat)))

/-- The id field of an MCTS node. -/
def MCTSNode.id : MCTSNode → Nat
  | .mk i _ _ _ _ _ _ => i

/-- The state field of an MCTS node. -/
def MCTSNode.state : MCTSNode → StateVal
  | .mk _ st _ _ _ _ _ => st

/-- The children collection of an MCTS node (None when never populated). -/
def MCTSNode.children : MCTSNode → Option (List MCTSNode)
  | .mk _ _ ch _ _ _ _ => ch

/-- The optional cumulative value estimate Q of an MCTS node. -/
def MCTSNode.q : MCTSNode → Option Rat
  | .mk _ _ _ qv _ _ _ => qv

/-- The optional reward of an MCTS node. -/
def MCTSNode.reward : MCTSNode → Option Rat
  | .mk _ _ _ _ r _ _ => r

/-- The optional finalized reward-detail mapping of an MCTS node. -/
def MCTSNode.reward_details : MCTSNode → Option (List (String × Rat))
  | .mk _ _ _ _ _ rd _ => rd

/-- The optional provisional (fast) reward-detail mapping of an MCTS node. -/
def MCTSNode.fast_reward_details : MCTSNode → Option (List (String × Rat))
  | .mk _ _ _ _ _ _ fd => fd

/-- get_reward_details of from_mcts_results: the finalized reward-detail
field when the attribute exists, else the fast one when that attribute
exists, else None. -/
def get_reward_details (n : MCTSNode) : Option (List (String × Rat)) :=
  match n.reward_details with
  | some d => some d
  | none => n.fast_reward_details

/-- The default node-data factory of from_mcts_results, applied to the
node's state. -/
def default_node_data_factory_mcts (n : MCTSNode) : Except VizError NodeData :=
  state_to_data n.state

/-- The default edge-data factory of from_mcts_results: the dict display
evaluates n.Q and n.reward (AttributeError when the attribute is missing)
and then unpacks get_reward_details(n) with a double star, which raises
TypeError when that value is None; otherwise the detail entries are merged
over the Q and reward entries with dict semantics. -/
def default_edge_data_factory (n : MCTSNode) : Except VizError EdgeData :=
  match n.q with
  | none => .error .attributeError
  | some qv =>
    match n.reward with
    | none => .error .attributeError
    | some rv =>
      match get_reward_details n with
      | none => .error .typeError
      | some details =>
          .ok (details.foldl (fun d p => dinsert d p.1 (JVal.num p.2))
            [("Q", JVal.num qv), ("reward", JVal.num rv)])

mutual

/-- The recursive tree walk of from_mcts_results (the inner all_nodes):
store the visited node in the node dictionary under its own algorithm id
with a None selected edge, then, unless the children collection is absent,
traverse the children in order, appending for each child an edge whose id is
the current length of the edge list before recursing into the child.  The
node and edge data factories may fail, aborting the walk. -/
def allNodesMCTS (ndf : MCTSNode → Except VizError NodeData)
    (edf : MCTSNode → Except VizError EdgeData) :
    MCTSNode → List (Nat × TreeSnapshot.Node) → List TreeSnapshot.Edge →
    Except VizError (List (Nat × TreeSnapshot.Node) × List TreeSnapshot.Edge)
  | .mk i st ch qv rv rd fd, nodesAcc, edgesAcc =>
    match ndf (.mk i st ch qv rv rd fd) with
    | .error e => .error e
    | .ok nd =>
      let nodesAcc2 := dinsert nodesAcc i ⟨i, nd, Option.none⟩
      match ch with
      | Option.none => .ok (nodesAcc2, edgesAcc)
      | some cs => allNodesListMCTS ndf edf i cs nodesAcc2 edgesAcc

/-- Walk the children list of an MCTS node: create the parent-to-child edge
(next unused edge id), recurse into the child, then continue with the
remaining children. -/
def allNodesListMCTS (ndf : MCTSNode → Except VizError NodeData)
    (edf : MCTSNode → Except VizError EdgeData) (pid : Nat) :
    List MCTSNode → List (Nat × TreeSnapshot.Node) → List TreeSnapshot.Edge →
    Except VizError (List (Nat × TreeSnapshot.Node) × List TreeSnapshot.Edge)
  | [], nodesAcc, edgesAcc => .ok (nodesAcc, edgesAcc)
  | c :: rest, nodesAcc, edgesAcc =>
    match edf c with
    | .error e => .error e
    | .ok ed =>
      let edgesAcc2 := edgesAcc ++ [⟨edgesAcc.length, pid, c.id, ed⟩]
      match allNodesMCTS ndf edf c nodesAcc edgesAcc2 with
      | .error e => .error e
      | .ok (ns2, es2) => allNodesListMCTS ndf edf pid rest ns2 es2

end

/-- A TreeLog object: the ordered immutable sequence of snapshots. -/
structure TreeLog where
  snapshots : List TreeSnapshot
deriving DecidableEq, Repr

/-- Length query of a TreeLog. -/
def TreeLog.length (l : TreeLog) : Nat :=
  l.snapshots.length

/-- Indexed access of a TreeLog. -/
def TreeLog.get? (l : TreeLog) (i : Nat) : Option TreeSnapshot :=
  l.snapshots.get? i

/-- The numeric value stored in an edge-data mapping under the given key, as
used by the selection key functions edge.data.get of the source; None models
the negative-infinity default supplied for an absent key. -/
def selKey (d : EdgeData) (key : String) : Option Rat :=
  match dlookup d key with
  | some (JVal.num q) => some q
  | some (JVal.str _) => Option.none
  | Option.none => Option.none

/-- The strict order used by the max of the highlighting pass: None stands
for negative infinity, so None is below every number and numbers compare as
rationals. -/
def okeyLt : Option Rat → Option Rat → Bool
  | _, Option.none => false
  | Option.none, some _ => true
  | some a, some b => decide (a < b)

/-- Python max with a key function over a list of edges: fold keeping the
current champion and replacing it only when a strictly greater key appears,
so the first edge attaining the maximal key wins.  Returns None on an empty
list (Python would raise ValueError there; the highlighting pass only calls
it for nodes with a nonempty children set, which for adapter-built snapshots
guarantees a nonempty out-edge list). -/
def maxByKey (es : List TreeSnapshot.Edge) (key : String) : Option TreeSnapshot.Edge :=
  es.foldl
    (fun acc e =>
      match acc with
      | Option.none => some e
      | some c => if okeyLt (selKey c.data key) (selKey e.data key) then some e else some c)
    Option.none

/-- Replace the selected edge of the node stored under the given key of the
snapshot's node dictionary (the Python pass mutates the Node object in
place). -/
def setSelected (s : TreeSnapshot) (nid : Nat) (v : Option Nat) : TreeSnapshot :=
  { s with nodes := s.nodes.map (fun p =>
      if p.1 = nid then (p.1, { p.2 with selected_edge := v }) else p) }

/-- The max-selection highlighting pass shared by the three adapters: every
node whose selected edge is still None and whose children set is nonempty
gets the out edge with the maximal value under the given data key (Q for
MCTS, reward for beam search and DFS), ties broken by the first encountered
edge of the edge dictionary's insertion order. -/
def applyMaxSelection (s : TreeSnapshot) (key : String) : TreeSnapshot :=
  { s with nodes := s.nodes.map (fun p =>
      if p.2.selected_edge.isNone && !(s.children p.2.id).isEmpty then
        (p.1, { p.2 with selected_edge := (maxByKey (s.out_edges p.2.id) key).map (fun e => e.id) })
      else p) }

/-- One step of the MCTS trace highlighting: for a consecutive pair of trace
nodes, find the first out edge of the incoming node whose target is the
outgoing node; when one exists, store its id as the incoming node's selected
edge (the Python subscript on the node dictionary would raise KeyError, the
spec's NotFound, were the incoming node absent, which cannot happen for
walk-built snapshots since every edge source is a stored node). -/
def applyTracePair (s : TreeSnapshot) (inId outId : Nat) : Except VizError TreeSnapshot :=
  match (s.out_edges inId).find? (fun e => decide (e.target = outId)) with
  | Option.none => .ok s
  | some e =>
      if (dlookup s.nodes inId).isSome then
        .ok (setSelected s inId (some e.id))
      else
        .error .notFound

/-- The MCTS trace highlighting pass: apply the pair step to every
consecutive pair of the iteration trace. -/
def applyTrace (s : TreeSnapshot) : List MCTSNode → Except VizError TreeSnapshot
  | [] => .ok s
  | [_] => .ok s
  | a :: b :: rest => do
      let s2 ← applyTracePair s a.id b.id
      applyTrace s2 (b :: rest)

/-- Modelled from the spec: the MCTS result structure (reasoners.algorithm
is not part of the given sources): the final tree state, an optional list of
tree states after each iteration, and an optional ordered per-iteration
trace. -/
structure MCTSResult where
  tree_state : MCTSNode
  tree_state_after_each_iter : Option (List MCTSNode)
  trace_in_each_iter : Option (List (List MCTSNode))

/-- One loop iteration of from_mcts_results: walk the root of this step with
empty accumulators, construct the snapshot, apply the trace highlighting for
this step when a nonempty per-iteration trace list was supplied (indexing
it with the step number, IndexError when too short), then apply the
max-selection pass with the Q key. -/
def mctsProcessStep (ndf : MCTSNode → Except VizError NodeData)
    (edf : MCTSNode → Except VizError EdgeData)
    (tr : Option (List (List MCTSNode))) (root : MCTSNode) (step : Nat) :
    Except VizError TreeSnapshot := do
  let out ← allNodesMCTS ndf edf root [] []
  let tree ← TreeSnapshot.init (out.1.map Prod.snd) out.2
  let tree2 ←
    match tr with
    | some (t :: ts) =>
        match (t :: ts).get? step with
        | some trace => applyTrace tree trace
        | Option.none => throw .indexError
    | _ => pure tree
  pure (applyMaxSelection tree2 "Q")

/-- The per-step loop of from_mcts_results, producing one snapshot per tree
state in order, numbering the steps from the given index. -/
def mctsSteps (ndf : MCTSNode → Except VizError NodeData)
    (edf : MCTSNode → Except VizError EdgeData)
    (tr : Option (List (List MCTSNode))) :
    List MCTSNode → Nat → Except VizError (List TreeSnapshot)
  | [], _ => .ok []
  | root :: rest, step => do
      let s ← mctsProcessStep ndf edf tr root step
      let ss ← mctsSteps ndf edf tr rest (step + 1)
      pure (s :: ss)

/-- TreeLog.from_mcts_results: substitute the default factories for absent
ones, take the per-iteration tree states when supplied (one snapshot per
entry) and otherwise the single final tree state, and run the per-step
loop. -/
def TreeLog.from_mcts_results (res : MCTSResult)
    (ndf : Option (MCTSNode → Except VizError NodeData))
    (edf : Option (MCTSNode → Except VizError EdgeData)) :
    Except VizError TreeLog := do
  let ndf2 := ndf.getD default_node_data_factory_mcts
  let edf2 := edf.getD default_edge_data_factory
  let tree_states :=
    match res.tree_state_after_each_iter with
    | Option.none => [res.tree_state]
    | some ts => ts
  let ss ← mctsSteps ndf2 edf2 res.trace_in_each_iter tree_states 0
  pure ⟨ss⟩

/-- Modelled from the spec: a beam-search or DFS algorithm node
(reasoners.algorithm is not part of the given sources).  Per the spec input
contract both expose the same fields: an id, an optional state, a children
collection that is always present (possibly empty), and reward and action
fields; BeamSearchNode and DFSNode are modelled by this one type. -/
inductive SearchTreeNode where
  | mk (id : Nat) (state : StateVal) (children : List SearchTreeNode)
      (reward : Rat) (action : String)

/-- The id field of a beam-search or DFS node. -/
def SearchTreeNode.id : SearchTreeNode → Nat
  | .mk i _ _ _ _ => i

/-- The state field of a beam-search or DFS node. -/
def SearchTreeNode.state : SearchTreeNode → StateVal
  | .mk _ st _ _ _ => st

/-- The children list of a beam-search or DFS node. -/
def SearchTreeNode.children : SearchTreeNode → List SearchTreeNode
  | .mk _ _ ch _ _ => ch

/-- The reward field of a beam-search or DFS node. -/
def SearchTreeNode.reward : SearchTreeNode → Rat
  | .mk _ _ _ r _ => r

/-- The action field of a beam-search or DFS node. -/
def SearchTreeNode.action : SearchTreeNode → String
  | .mk _ _ _ _ a => a

/-- The default node-data factory of from_beam_search_results, applied to
the node's state (textually identical to the MCTS and DFS ones). -/
def default_node_data_factory_bs (n : SearchTreeNode) : Except VizError NodeData :=
  state_to_data n.state

/-- The default node-data factory of from_dfs_results, applied to the
node's state (textually identical to the MCTS and beam-search ones). -/
def default_node_data_factory_dfs (n : SearchTreeNode) : Except VizError NodeData :=
  state_to_data n.state

/-- The default edge-data factory of from_beam_search_results and
from_dfs_results: the child's reward and the action that produced it. -/
def default_edge_data_factory_bs (n : SearchTreeNode) : Except VizError EdgeData :=
  .ok [("reward", JVal.num n.reward), ("action", JVal.str n.action)]

mutual

/-- The recursive tree walk shared by from_beam_search_results and
from_dfs_results (their inner all_nodes): store the visited node under its
own algorithm id with a None selected edge, then traverse the always
present children list in order, appending for each child an edge whose id
is the current length of the edge list before recursing into the child. -/
def allNodesBS (ndf : SearchTreeNode → Except VizError NodeData)
    (edf : SearchTreeNode → Except VizError EdgeData) :
    SearchTreeNode → List (Nat × TreeSnapshot.Node) → List TreeSnapshot.Edge →
    Except VizError (List (Nat × TreeSnapshot.Node) × List TreeSnapshot.Edge)
  | .mk i st cs rv av, nodesAcc, edgesAcc =>
    match ndf (.mk i st cs rv av) with
    | .error e => .error e
    | .ok nd =>
      let nodesAcc2 := dinsert nodesAcc i ⟨i, nd, Option.none⟩
      allNodesListBS ndf edf i cs nodesAcc2 edgesAcc

/-- Walk a children list of a beam-search or DFS node. -/
def allNodesListBS (ndf : SearchTreeNode → Except VizError NodeData)
    (edf : SearchTreeNode → Except VizError EdgeData) (pid : Nat) :
    List SearchTreeNode → List (Nat × TreeSnapshot.Node) → List TreeSnapshot.Edge →
    Except VizError (List (Nat × TreeSnapshot.Node) × List TreeSnapshot.Edge)
  | [], nodesAcc, edgesAcc => .ok (nodesAcc, edgesAcc)
  | c :: rest, nodesAcc, edgesAcc =>
    match edf c with
    | .error e => .error e
    | .ok ed =>
      let edgesAcc2 := edgesAcc ++ [⟨edgesAcc.length, pid, c.id, ed⟩]
      match allNodesBS ndf edf c nodesAcc edgesAcc2 with
      | .error e => .error e
      | .ok (ns2, es2) => allNodesListBS ndf edf pid rest ns2 es2

end

/-- Modelled from the spec: the beam-search result structure holding the
single supplied result tree (reasoners.algorithm is not part of the given
sources). -/
structure BeamSearchResult where
  tree : SearchTreeNode

/-- Modelled from the spec: the DFS result structure holding the single
supplied result tree (reasoners.algorithm is not part of the given
sources). -/
structure DFSResult where
  tree_state : SearchTreeNode

/-- TreeLog.from_beam_search_results: a single result is wrapped into a one
element list, after which only element zero of the sequence is converted
(IndexError on an empty sequence); walk its tree, construct the snapshot,
apply the max-selection pass with the reward key, and return a log holding
that one snapshot. -/
def TreeLog.from_beam_search_results
    (bs_results : Sum BeamSearchResult (List BeamSearchResult))
    (ndf : Option (SearchTreeNode → Except VizError NodeData))
    (edf : Option (SearchTreeNode → Except VizError EdgeData)) :
    Except VizError TreeLog := do
  let results := match bs_results with
    | .inl r => [r]
    | .inr rs => rs
  let first ← match results with
    | [] => throw VizError.indexError
    | r :: _ => pure r
  let ndf2 := ndf.getD default_node_data_factory_bs
  let edf2 := edf.getD default_edge_data_factory_bs
  let out ← allNodesBS ndf2 edf2 first.tree [] []
  let tree ← TreeSnapshot.init (out.1.map Prod.snd) out.2
  pure ⟨[applyMaxSelection tree "reward"]⟩

/-- TreeLog.from_dfs_results: walk the single result tree, construct the
snapshot, apply the max-selection pass with the reward key, and return a
log holding that one snapshot. -/
def TreeLog.from_dfs_results (dfs_results : DFSResult)
    (ndf : Option (SearchTreeNode → Except VizError NodeData))
    (edf : Option (SearchTreeNode → Except VizError EdgeData)) :
    Except VizError TreeLog := do
  let ndf2 := ndf.getD default_node_data_factory_dfs
  let edf2 := edf.getD default_edge_data_factory_bs
  let out ← allNodesBS ndf2 edf2 dfs_results.tree_state [] []
  let tree ← TreeSnapshot.init (out.1.map Prod.snd) out.2
  pure ⟨[applyMaxSelection tree "reward"]⟩

/-- The JSON wire format produced by serializing a TreeLog through
TreeLogEncoder with json.dumps. -/
inductive Json where
  | null
  | num (q : Rat)
  | str (s : String)
  | arr (items : List Json)
  | obj (fields : List (String × Json))

/-- Encode a primitive data value. -/
def encodeJVal : JVal → Json
  | .num q => .num q
  | .str s => .str s

/-- Encode a data-mapping key: json.dumps turns integer dictionary keys into
their decimal strings. -/
def encodeDKey : DKey → String
  | .ks s => s
  | .kn n => toString n

/-- Encode a node-data mapping as a JSON object. -/
def encodeNodeData (d : NodeData) : Json :=
  .obj (d.map (fun p => (encodeDKey p.1, encodeJVal p.2)))

/-- Encode an edge-data mapping as a JSON object. -/
def encodeEdgeData (d : EdgeData) : Json :=
  .obj (d.map (fun p => (p.1, encodeJVal p.2)))

/-- Encode a node: TreeLogEncoder serializes the instance dictionary of the
Node dataclass, whose entries are id, data and selected_edge in declaration
order, the last being JSON null when no selected edge is set. -/
def encodeNode (n : TreeSnapshot.Node) : Json :=
  .obj [("id", .num (n.id : Rat)),
        ("data", encodeNodeData n.data),
        ("selected_edge", match n.selected_edge with
          | Option.none => .null
          | some e => .num (e : Rat))]

/-- Encode an edge: the instance dictionary of the Edge dataclass, whose
entries are id, source, target and data in declaration order. -/
def encodeEdge (e : TreeSnapshot.Edge) : Json :=
  .obj [("id", .num (e.id : Rat)),
        ("source", .num (e.source : Rat)),
        ("target", .num (e.target : Rat)),
        ("data", encodeEdgeData e.data)]

/-- Encode a snapshot: TreeLogEncoder calls the snapshot's dictionary
method, which exposes only the node and edge dictionaries (never the
derived parent or children indices); json.dumps renders the integer ids
keying those dictionaries as strings. -/
def encodeSnapshot (s : TreeSnapshot) : Json :=
  .obj [("nodes", .obj (s.nodes.map (fun p => (toString p.1, encodeNode p.2)))),
        ("edges", .obj (s.edges.map (fun p => (toString p.1, encodeEdge p.2))))]

/-- Encode a log: TreeLogEncoder maps a TreeLog to an object with the single
key logs holding the list of its snapshots in order. -/
def encodeTreeLog (l : TreeLog) : Json :=
  .obj [("logs", .arr (l.snapshots.map encodeSnapshot))]

/-- The top-level keys of an encoded JSON object (empty for non-objects). -/
def objKeys : Json → List String
  | .obj fields => fields.map Prod.fst
  | _ => []

mutual

/-- The visitation order of the MCTS walk: the ids of the nodes of the tree
in pre-order, children in the order provided, an absent children collection
contributing none. -/
def preorderIdsM : MCTSNode → List Nat
  | .mk i _ Option.none _ _ _ _ => [i]
  | .mk i _ (some cs) _ _ _ _ => i :: preorderIdsListM cs

/-- Pre-order ids of a list of MCTS subtrees. -/
def preorderIdsListM : List MCTSNode → List Nat
  | [] => []
  | c :: rest => preorderIdsM c ++ preorderIdsListM rest

end

mutual

/-- The visitation order of the beam-search and DFS walk: the ids of the
nodes of the tree in pre-order, children in the order provided. -/
def preorderIdsBS : SearchTreeNode → List Nat
  | .mk i _ cs _ _ => i :: preorderIdsListBS cs

/-- Pre-order ids of a list of beam-search or DFS subtrees. -/
def preorderIdsListBS : List SearchTreeNode → List Nat
  | [] => []
  | c :: rest => preorderIdsBS c ++ preorderIdsListBS rest

end

theorem dinsert_of_not_mem [DecidableEq k] (d : List (k × a)) (key : k) (v : a)
    (h : key ∉ d.map Prod.fst) : dinsert d key v = d ++ [(key, v)] := by
  unfold dinsert
  have : d.any (fun p => decide (p.1 = key)) = false := by
    simp only [List.any_eq_false, decide_eq_true_eq]
    intro p hp hpk
    exact h (hpk ▸ List.mem_map_of_mem Prod.fst hp)
  simp [this]

theorem dlookup_dinsert [DecidableEq k] (d : List (k × a)) (key key2 : k) (v : a) :
    dlookup (dinsert d key v) key2 = if key2 = key then some v else dlookup d key2 := by
  unfold dinsert dlookup
  by_cases hany : d.any (fun p => decide (p.1 = key)) = true
  · rw [if_pos hany]
    rw [List.find?_map]
    have hcomp : ((fun q : k × a => decide (q.1 = key2)) ∘
        (fun p : k × a => if p.1 = key then (key, v) else p)) =
        (fun p : k × a => decide (p.1 = key2)) := by
      funext p
      by_cases hp : p.1 = key <;> simp [hp]
    rw [hcomp]
    by_cases h2 : key2 = key
    · subst h2
      rcases List.any_eq_true.mp hany with ⟨p0, hp0, hp0k⟩
      have hsome : (d.find? (fun p => decide (p.1 = key2))).isSome := by
        rw [List.find?_isSome]
        exact ⟨p0, hp0, hp0k⟩
      rcases Option.isSome_iff_exists.mp hsome with ⟨p1, hp1⟩
      have hp1k : p1.1 = key2 := by simpa using List.find?_some hp1
      simp [hp1, hp1k]
    · simp only [h2, if_false]
      cases hf : d.find? (fun p => decide (p.1 = key2)) with
      | none => simp
      | some p1 =>
          have hp1k : p1.1 = key2 := by simpa using List.find?_some hf
          have : ¬ p1.1 = key := by rw [hp1k]; exact h2
          simp [this]
  · rw [if_neg hany]
    rw [List.find?_append]
    have hnone : d.find? (fun p => decide (p.1 = key)) = none := by
      rw [List.find?_eq_none]
      intro p hp
      simp only [decide_eq_true_eq]
      intro hpk
      exact hany (List.any_eq_true.mpr ⟨p, hp, by simp [hpk]⟩)
    by_cases h2 : key2 = key
    · subst h2
      simp [hnone]
    · have : ((fun p : k × a => decide (p.1 = key2)) (key, v)) = false := by
        simp [Ne.symm h2]
      cases hf : d.find? (fun p => decide (p.1 = key2)) with
      | none => simp [List.find?_cons, this, h2]
      | some p1 => simp [Option.or, h2]

theorem mem_dinsert [DecidableEq k] {d : List (k × a)} {key : k} {v : a} {p : k × a}
    (h : p ∈ dinsert d key v) : p ∈ d ∨ p = (key, v) := by
  unfold dinsert at h
  by_cases hany : d.any (fun q => decide (q.1 = key)) = true
  · rw [if_pos hany] at h
    simp only [List.mem_map] at h
    rcases h with ⟨q, hq, hqe⟩
    by_cases hqk : q.1 = key
    · right
      rw [← hqe]; simp [hqk]
    · left
      have : (if q.1 = key then (key, v) else q) = q := by simp [hqk]
      rw [← hqe, this]; exact hq
  · rw [if_neg hany] at h
    simpa [List.mem_append] using h

theorem keys_dinsert [DecidableEq k] (d : List (k × a)) (key : k) (v : a) :
    (dinsert d key v).map Prod.fst =
      if key ∈ d.map Prod.fst then d.map Prod.fst else d.map Prod.fst ++ [key] := by
  unfold dinsert
  have hmem : (d.any (fun p => decide (p.1 = key)) = true) ↔ key ∈ d.map Prod.fst := by
    simp only [List.any_eq_true, decide_eq_true_eq, List.mem_map]
  by_cases hany : d.any (fun p => decide (p.1 = key)) = true
  · rw [if_pos hany, if_pos (hmem.mp hany)]
    rw [List.map_map]
    apply List.map_congr_left
    intro p _
    by_cases hp : p.1 = key <;> simp [hp]
  · rw [if_neg hany, if_neg (fun hc => hany (hmem.mpr hc))]
    simp

theorem keys_nodup_dinsert [DecidableEq k] (d : List (k × a)) (key : k) (v : a)
    (h : (d.map Prod.fst).Nodup) : ((dinsert d key v).map Prod.fst).Nodup := by
  rw [keys_dinsert]
  by_cases hk : key ∈ d.map Prod.fst
  · simpa [hk]
  · rw [if_neg hk, List.nodup_append]
    refine ⟨h, List.nodup_singleton key, ?_⟩
    intro x hx hx2
    simp only [List.mem_singleton] at hx2
    subst hx2
    exact hk hx

theorem find?_eq_of_mem_nodup [DecidableEq k] {d : List (k × a)} {key : k} {v : a}
    (hnd : (d.map Prod.fst).Nodup) (hmem : (key, v) ∈ d) :
    d.find? (fun p => decide (p.1 = key)) = some (key, v) := by
  induction d with
  | nil => cases hmem
  | cons q rest ih =>
      have hnd1 : (q.1 :: rest.map Prod.fst).Nodup := by simpa using hnd
      have hnd2 := List.nodup_cons.mp hnd1
      rcases List.mem_cons.mp hmem with hq | hq
      · rw [← hq]
        simp [List.find?_cons]
      · have hqk : ¬ q.1 = key := by
          intro hk
          apply hnd2.1
          rw [hk]
          exact List.mem_map_of_mem Prod.fst hq
        rw [List.find?_cons_of_neg _ (by simpa using hqk)]
        exact ih hnd2.2 hq

theorem dlookup_of_mem_nodup [DecidableEq k] {d : List (k × a)} {key : k} {v : a}
    (hnd : (d.map Prod.fst).Nodup) (hmem : (key, v) ∈ d) : dlookup d key = some v := by
  unfold dlookup
  rw [find?_eq_of_mem_nodup hnd hmem]
  rfl

theorem dlookup_map_keyfix [DecidableEq k] (g : (k × a) → (k × a))
    (hg : ∀ p, (g p).1 = p.1) (d : List (k × a)) (key : k) :
    dlookup (d.map g) key = (d.find? (fun p => decide (p.1 = key))).map (fun p => (g p).2) := by
  unfold dlookup
  rw [List.find?_map]
  have hcomp : ((fun q : k × a => decide (q.1 = key)) ∘ g) =
      (fun p : k × a => decide (p.1 = key)) := by
    funext p
    simp [hg p]
  rw [hcomp]
  cases d.find? (fun p => decide (p.1 = key)) <;> simp

theorem keys_map_keyfix (g : (k × a) → (k × a)) (hg : ∀ p, (g p).1 = p.1)
    (d : List (k × a)) : (d.map g).map Prod.fst = d.map Prod.fst := by
  rw [List.map_map]
  apply List.map_congr_left
  intro p _
  exact hg p

theorem mem_foldl_dinsert [DecidableEq k] (f : a → k) :
    ∀ (l : List a) (acc : List (k × a)) (p : k × a),
      p ∈ l.foldl (fun d x => dinsert d (f x) x) acc →
      p ∈ acc ∨ (p.2 ∈ l ∧ p.1 = f p.2) := by
  intro l
  induction l with
  | nil => intro acc p h; exact Or.inl h
  | cons x rest ih =>
      intro acc p h
      rw [List.foldl_cons] at h
      rcases ih (dinsert acc (f x) x) p h with h2 | h2
      · rcases mem_dinsert h2 with h3 | h3
        · exact Or.inl h3
        · right
          rw [h3]
          exact ⟨List.mem_cons_self x rest, rfl⟩
      · right
        exact ⟨List.mem_cons_of_mem x h2.1, h2.2⟩

theorem mem_dictBy [DecidableEq k] {f : a → k} {l : List a} {p : k × a}
    (h : p ∈ dictBy f l) : p.2 ∈ l ∧ p.1 = f p.2 := by
  rcases mem_foldl_dinsert f l [] p h with h2 | h2
  · cases h2
  · exact h2

theorem keys_nodup_foldl_dinsert [DecidableEq k] (f : a → k) :
    ∀ (l : List a) (acc : List (k × a)), (acc.map Prod.fst).Nodup →
      ((l.foldl (fun d x => dinsert d (f x) x) acc).map Prod.fst).Nodup := by
  intro l
  induction l with
  | nil => intro acc h; exact h
  | cons x rest ih =>
      intro acc h
      rw [List.foldl_cons]
      exact ih (dinsert acc (f x) x) (keys_nodup_dinsert acc (f x) x h)

theorem keys_nodup_dictBy [DecidableEq k] (f : a → k) (l : List a) :
    ((dictBy f l).map Prod.fst).Nodup :=
  keys_nodup_foldl_dinsert f l [] (by simp)

theorem mem_keys_foldl_dinsert [DecidableEq k] (f : a → k) :
    ∀ (l : List a) (acc : List (k × a)) (i : k),
      (i ∈ (l.foldl (fun d x => dinsert d (f x) x) acc).map Prod.fst ↔
        i ∈ acc.map Prod.fst ∨ ∃ x ∈ l, f x = i) := by
  intro l
  induction l with
  | nil => intro acc i; simp
  | cons x rest ih =>
      intro acc i
      rw [List.foldl_cons, ih]
      rw [keys_dinsert]
      by_cases hx : f x ∈ acc.map Prod.fst
      · rw [if_pos hx]
        constructor
        · rintro (h | h)
          · exact Or.inl h
          · exact Or.inr (by simpa using Or.inr (by simpa using h))
        · rintro (h | ⟨y, hy, hyi⟩)
          · exact Or.inl h
          · rcases List.mem_cons.mp hy with hy2 | hy2
            · exact Or.inl (by rw [← hyi, hy2]; exact hx)
            · exact Or.inr ⟨y, hy2, hyi⟩
      · rw [if_neg hx]
        simp only [List.mem_append, List.mem_singleton]
        constructor
        · rintro ((h | h) | h)
          · exact Or.inl h
          · exact Or.inr ⟨x, List.mem_cons_self x rest, h.symm⟩
          · rcases h with ⟨y, hy, hyi⟩
            exact Or.inr ⟨y, List.mem_cons_of_mem x hy, hyi⟩
        · rintro (h | ⟨y, hy, hyi⟩)
          · exact Or.inl (Or.inl h)
          · rcases List.mem_cons.mp hy with hy2 | hy2
            · exact Or.inl (Or.inr (by rw [← hyi, hy2]))
            · exact Or.inr ⟨y, hy2, hyi⟩

theorem mem_keys_dictBy [DecidableEq k] (f : a → k) (l : List a) (i : k) :
    i ∈ (dictBy f l).map Prod.fst ↔ ∃ x ∈ l, f x = i := by
  rw [dictBy, mem_keys_foldl_dinsert]
  simp

theorem foldl_dinsert_fresh [DecidableEq k] (f : a → k) :
    ∀ (l : List a) (acc : List (k × a)), (l.map f).Nodup →
      (∀ x ∈ l, f x ∉ acc.map Prod.fst) →
      l.foldl (fun d x => dinsert d (f x) x) acc = acc ++ l.map (fun x => (f x, x)) := by
  intro l
  induction l with
  | nil => intro acc _ _; simp
  | cons x rest ih =>
      intro acc hnd hfr
      rw [List.foldl_cons]
      rw [dinsert_of_not_mem acc (f x) x (hfr x (List.mem_cons_self x rest))]
      rw [ih (acc ++ [(f x, x)]) (by simpa using (List.nodup_cons.mp (by simpa using hnd)).2) ?_]
      · simp
      · intro y hy
        rw [List.map_append, List.mem_append]
        rintro (h | h)
        · exact hfr y (List.mem_cons_of_mem x hy) h
        · simp only [List.map_cons, List.map_nil, List.mem_singleton] at h
          exact (List.nodup_cons.mp (by simpa using hnd)).1 (h ▸ List.mem_map_of_mem f hy)

theorem dictBy_eq_self [DecidableEq k] (f : a → k) (l : List a) (h : (l.map f).Nodup) :
    dictBy f l = l.map (fun x => (f x, x)) := by
  rw [dictBy, foldl_dinsert_fresh f l [] h (by simp)]
  simp

theorem foldl_parent_lookup (es : List TreeSnapshot.Edge) :
    ∀ (acc : List (Nat × Nat)) (t : Nat),
      dlookup (es.foldl (fun d e => dinsert d e.target e.source) acc) t =
      ((es.reverse.find? (fun e => decide (e.target = t))).map TreeSnapshot.Edge.source).or
        (dlookup acc t) := by
  induction es with
  | nil => intro acc t; simp
  | cons e rest ih =>
      intro acc t
      rw [List.foldl_cons, ih]
      rw [List.reverse_cons, List.find?_append]
      cases hf : rest.reverse.find? (fun e2 => decide (e2.target = t)) with
      | some e2 => simp [Option.or]
      | none =>
          simp only [Option.map_none', Option.none_or, Option.or]
          rw [dlookup_dinsert]
          by_cases ht : t = e.target
          · simp [List.find?_cons, ht]
          · have : ¬ e.target = t := fun hc => ht hc.symm
            simp [List.find?_cons, this, ht]

theorem parentDict_lookup (es : List TreeSnapshot.Edge) (t : Nat) :
    dlookup (parentDict es) t =
      (es.reverse.find? (fun e => decide (e.target = t))).map TreeSnapshot.Edge.source := by
  rw [parentDict, foldl_parent_lookup es [] t]
  cases (es.reverse.find? (fun e => decide (e.target = t))).map TreeSnapshot.Edge.source <;>
    simp [dlookup, Option.or]

theorem childrenOfD_cadd_ne_nil (d : List (Nat × List Nat)) (key v i : Nat) :
    childrenOfD (cadd d key v) i ≠ [] ↔ (i = key ∨ childrenOfD d i ≠ []) := by
  unfold cadd childrenOfD
  by_cases hany : d.any (fun p => decide (p.1 = key)) = true
  · rw [if_pos hany]
    rw [dlookup_map_keyfix _ (fun p => by by_cases hp : p.1 = key <;> simp [hp]) d i]
    unfold dlookup
    cases hfind : d.find? (fun p => decide (p.1 = i)) with
    | none =>
        simp only [Option.map_none', Option.getD_none, ne_eq]
        constructor
        · intro h; exact absurd trivial h
        · rintro (h | h)
          · subst h
            rcases List.any_eq_true.mp hany with ⟨p0, hp0, hp0k⟩
            have : (d.find? (fun p => decide (p.1 = i))).isSome := by
              rw [List.find?_isSome]
              exact ⟨p0, hp0, hp0k⟩
            rw [hfind] at this
            cases this
          · exact absurd trivial h
    | some p1 =>
        have hp1 : p1.1 = i := by simpa using List.find?_some hfind
        simp only [Option.map_some', Option.getD_some, ne_eq]
        by_cases hpk : p1.1 = key
        · rw [if_pos hpk]
          constructor
          · intro _; exact Or.inl (hp1 ▸ hpk)
          · intro _
            by_cases hc : p1.2.contains v
            · rw [if_pos hc]
              intro hnil
              rw [hnil] at hc
              simp at hc
            · rw [if_neg hc]
              intro hnil
              exact absurd hnil (by simp)
        · rw [if_neg hpk]
          constructor
          · intro h; exact Or.inr h
          · rintro (h | h)
            · exact absurd (hp1.trans h) hpk
            · exact h
  · rw [if_neg hany]
    unfold dlookup
    rw [List.find?_append]
    have hnone : d.find? (fun p => decide (p.1 = key)) = none := by
      rw [List.find?_eq_none]
      intro p hp
      simp only [decide_eq_true_eq]
      intro hpk
      exact hany (List.any_eq_true.mpr ⟨p, hp, by simp [hpk]⟩)
    by_cases hik : i = key
    · subst hik
      rw [hnone]
      simp [List.find?_cons]
    · have : ((fun p : Nat × List Nat => decide (p.1 = i)) (key, [v])) = false := by
        simp [Ne.symm hik]
      cases hf : d.find? (fun p => decide (p.1 = i)) with
      | none => simp [List.find?_cons, this, hik]
      | some p1 => simp [Option.or, hik]

theorem childrenDict_ne_nil (es : List TreeSnapshot.Edge) :
    ∀ (acc : List (Nat × List Nat)) (i : Nat),
      childrenOfD (es.foldl (fun d e => cadd d e.source e.target) acc) i ≠ [] ↔
      ((∃ e ∈ es, e.source = i) ∨ childrenOfD acc i ≠ []) := by
  induction es with
  | nil => intro acc i; simp
  | cons e rest ih =>
      intro acc i
      rw [List.foldl_cons, ih]
      rw [childrenOfD_cadd_ne_nil]
      constructor
      · rintro (⟨e2, he2, he2i⟩ | h | h)
        · exact Or.inl ⟨e2, List.mem_cons_of_mem e he2, he2i⟩
        · exact Or.inl ⟨e, List.mem_cons_self e rest, h.symm⟩
        · exact Or.inr h
      · rintro (⟨e2, he2, he2i⟩ | h)
        · rcases List.mem_cons.mp he2 with h2 | h2
          · exact Or.inr (Or.inl (by rw [← he2i, h2]))
          · exact Or.inl ⟨e2, h2, he2i⟩
        · exact Or.inr (Or.inr h)

theorem children_ne_nil_iff (es : List TreeSnapshot.Edge) (i : Nat) :
    childrenOfD (childrenDict es) i ≠ [] ↔ ∃ e ∈ es, e.source = i := by
  rw [childrenDict, childrenDict_ne_nil es [] i]
  simp [childrenOfD, dlookup]

theorem okeyLt_irrefl (x : Option Rat) : okeyLt x x = false := by
  cases x with
  | none => rfl
  | some q => simp [okeyLt]

theorem okeyLt_asymm {x y : Option Rat} (h : okeyLt x y = true) : okeyLt y x = false := by
  cases x <;> cases y <;> simp_all [okeyLt]
  exact le_of_lt h

theorem okeyLt_trans {x y z : Option Rat} (h1 : okeyLt x y = true)
    (h2 : okeyLt y z = true) : okeyLt x z = true := by
  cases x <;> cases y <;> cases z <;> simp_all [okeyLt]
  exact lt_trans h1 h2

theorem okeyLt_neg_trans {x y z : Option Rat} (h1 : okeyLt x y = false)
    (h2 : okeyLt y z = false) : okeyLt x z = false := by
  cases x <;> cases y <;> cases z <;> simp_all [okeyLt]
  exact le_trans h2 h1

/-- Declarative companion of the Python max: the first edge of the list
attaining the maximal key, computed right-recursively. -/
def specFirstMax (key : String) : List TreeSnapshot.Edge → Option TreeSnapshot.Edge
  | [] => Option.none
  | e :: rest =>
    match specFirstMax key rest with
    | Option.none => some e
    | some r => if okeyLt (selKey e.data key) (selKey r.data key) then some r else some e

theorem specFirstMax_none_iff (key : String) (l : List TreeSnapshot.Edge) :
    specFirstMax key l = Option.none ↔ l = [] := by
  cases l with
  | nil => simp [specFirstMax]
  | cons e rest =>
      simp only [specFirstMax]
      cases specFirstMax key rest with
      | none => simp
      | some r =>
          by_cases h : okeyLt (selKey e.data key) (selKey r.data key) = true <;> simp [h]

theorem specFirstMax_cons_none {key : String} {e : TreeSnapshot.Edge}
    {rest : List TreeSnapshot.Edge} (hr : specFirstMax key rest = Option.none) :
    specFirstMax key (e :: rest) = some e := by
  simp only [specFirstMax, hr]

theorem specFirstMax_cons_lt {key : String} {e rt : TreeSnapshot.Edge}
    {rest : List TreeSnapshot.Edge} (hr : specFirstMax key rest = some rt)
    (hlt : okeyLt (selKey e.data key) (selKey rt.data key) = true) :
    specFirstMax key (e :: rest) = some rt := by
  simp only [specFirstMax, hr, if_pos hlt]

theorem specFirstMax_cons_ge {key : String} {e rt : TreeSnapshot.Edge}
    {rest : List TreeSnapshot.Edge} (hr : specFirstMax key rest = some rt)
    (hlt : ¬ okeyLt (selKey e.data key) (selKey rt.data key) = true) :
    specFirstMax key (e :: rest) = some e := by
  simp only [specFirstMax, hr, if_neg hlt]

theorem specFirstMax_mem {key : String} {l : List TreeSnapshot.Edge}
    {r : TreeSnapshot.Edge} (h : specFirstMax key l = some r) : r ∈ l := by
  induction l with
  | nil => cases h
  | cons e rest ih =>
      cases hr : specFirstMax key rest with
      | none =>
          rw [specFirstMax_cons_none hr] at h
          obtain rfl := Option.some.inj h
          exact List.mem_cons_self _ _
      | some rt =>
          by_cases hlt : okeyLt (selKey e.data key) (selKey rt.data key) = true
          · rw [specFirstMax_cons_lt hr hlt] at h
            obtain rfl := Option.some.inj h
            exact List.mem_cons_of_mem e (ih hr)
          · rw [specFirstMax_cons_ge hr hlt] at h
            obtain rfl := Option.some.inj h
            exact List.mem_cons_self _ _

theorem specFirstMax_max {key : String} {l : List TreeSnapshot.Edge} :
    ∀ {r : TreeSnapshot.Edge}, specFirstMax key l = some r →
    ∀ x ∈ l, okeyLt (selKey r.data key) (selKey x.data key) = false := by
  induction l with
  | nil => intro r h; cases h
  | cons e rest ih =>
      intro r h x hx
      cases hr : specFirstMax key rest with
      | none =>
          rw [specFirstMax_cons_none hr] at h
          obtain rfl := Option.some.inj h
          have hnil : rest = [] := (specFirstMax_none_iff key rest).mp hr
          subst hnil
          rcases List.mem_cons.mp hx with hx2 | hx2
          · rw [hx2]; exact okeyLt_irrefl _
          · cases hx2
      | some rt =>
          by_cases hlt : okeyLt (selKey e.data key) (selKey rt.data key) = true
          · rw [specFirstMax_cons_lt hr hlt] at h
            obtain rfl := Option.some.inj h
            rcases List.mem_cons.mp hx with hx2 | hx2
            · rw [hx2]
              exact okeyLt_asymm hlt
            · exact ih hr x hx2
          · rw [specFirstMax_cons_ge hr hlt] at h
            obtain rfl := Option.some.inj h
            rcases List.mem_cons.mp hx with hx2 | hx2
            · rw [hx2]; exact okeyLt_irrefl _
            · exact okeyLt_neg_trans (Bool.eq_false_iff.mpr hlt) (ih hr x hx2)

theorem specFirstMax_first {key : String} {l : List TreeSnapshot.Edge}
    {r : TreeSnapshot.Edge} (h : specFirstMax key l = some r) :
    ∃ l1 l2, l = l1 ++ r :: l2 ∧
      ∀ x ∈ l1, okeyLt (selKey x.data key) (selKey r.data key) = true := by
  induction l with
  | nil => cases h
  | cons e rest ih =>
      cases hr : specFirstMax key rest with
      | none =>
          rw [specFirstMax_cons_none hr] at h
          obtain rfl := Option.some.inj h
          exact ⟨[], rest, rfl, by simp⟩
      | some rt =>
          by_cases hlt : okeyLt (selKey e.data key) (selKey rt.data key) = true
          · rw [specFirstMax_cons_lt hr hlt] at h
            obtain rfl := Option.some.inj h
            rcases ih hr with ⟨t1, t2, ht, hall⟩
            refine ⟨e :: t1, t2, by rw [ht]; rfl, ?_⟩
            intro x hx
            rcases List.mem_cons.mp hx with hx2 | hx2
            · rw [hx2]; exact hlt
            · exact hall x hx2
          · rw [specFirstMax_cons_ge hr hlt] at h
            obtain rfl := Option.some.inj h
            exact ⟨[], rest, rfl, by simp⟩

theorem foldMax_go (key : String) (l : List TreeSnapshot.Edge) :
    ∀ c : TreeSnapshot.Edge,
      l.foldl
        (fun acc e =>
          match acc with
          | Option.none => some e
          | some c2 => if okeyLt (selKey c2.data key) (selKey e.data key) then some e else some c2)
        (some c) =
      some (match specFirstMax key l with
        | Option.none => c
        | some r => if okeyLt (selKey c.data key) (selKey r.data key) then r else c) := by
  induction l with
  | nil => intro c; rfl
  | cons e rest ih =>
      intro c
      rw [List.foldl_cons]
      show List.foldl
          (fun acc e =>
            match acc with
            | Option.none => some e
            | some c2 => if okeyLt (selKey c2.data key) (selKey e.data key) then some e else some c2)
          (if okeyLt (selKey c.data key) (selKey e.data key) then some e else some c) rest =
        some (match specFirstMax key (e :: rest) with
          | Option.none => c
          | some r => if okeyLt (selKey c.data key) (selKey r.data key) then r else c)
      by_cases hce : okeyLt (selKey c.data key) (selKey e.data key) = true
      · rw [if_pos hce, ih e]
        cases hr : specFirstMax key rest with
        | none =>
            rw [specFirstMax_cons_none hr]
            simp [hce]
        | some rt =>
            by_cases het : okeyLt (selKey e.data key) (selKey rt.data key) = true
            · rw [specFirstMax_cons_lt hr het]
              have hct : okeyLt (selKey c.data key) (selKey rt.data key) = true :=
                okeyLt_trans hce het
              simp [het, hct]
            · rw [specFirstMax_cons_ge hr het]
              simp [het, hce]
      · rw [if_neg hce, ih c]
        cases hr : specFirstMax key rest with
        | none =>
            rw [specFirstMax_cons_none hr]
            simp [hce]
        | some rt =>
            by_cases het : okeyLt (selKey e.data key) (selKey rt.data key) = true
            · rw [specFirstMax_cons_lt hr het]
            · rw [specFirstMax_cons_ge hr het]
              have hct : okeyLt (selKey c.data key) (selKey rt.data key) = false :=
                okeyLt_neg_trans (Bool.eq_false_iff.mpr hce) (Bool.eq_false_iff.mpr het)
              simp [hct, hce]

theorem maxByKey_eq_specFirstMax (l : List TreeSnapshot.Edge) (key : String) :
    maxByKey l key = specFirstMax key l := by
  cases l with
  | nil => rfl
  | cons e rest =>
      unfold maxByKey
      rw [List.foldl_cons]
      show List.foldl
          (fun acc e =>
            match acc with
            | Option.none => some e
            | some c => if okeyLt (selKey c.data key) (selKey e.data key) then some e else some c)
          (some e) rest = specFirstMax key (e :: rest)
      rw [foldMax_go key rest e]
      cases hr : specFirstMax key rest with
      | none =>
          rw [specFirstMax_cons_none hr]
      | some rt =>
          by_cases hlt : okeyLt (selKey e.data key) (selKey rt.data key) = true
          · rw [specFirstMax_cons_lt hr hlt]
            simp [hlt]
          · rw [specFirstMax_cons_ge hr hlt]
            simp [hlt]

deriving instance DecidableEq for Except

/-- C1 counterexample: the claim that construction fails whenever the edge
count differs from the node count minus one is false on the code: two
parallel edges between the same two nodes give two edges for two nodes, yet
the parent dictionary (keyed by edge target) has exactly one entry, both
assertions pass, and construction succeeds. -/
theorem c1_counterexample :
    (([⟨0, 0, 1, []⟩, ⟨1, 0, 1, []⟩] : List TreeSnapshot.Edge).length : Int) ≠
      (([⟨0, [], Option.none⟩, ⟨1, [], Option.none⟩] : List TreeSnapshot.Node).length : Int) - 1 ∧
    (TreeSnapshot.init [⟨0, [], Option.none⟩, ⟨1, [], Option.none⟩]
        [⟨0, 0, 1, []⟩, ⟨1, 0, 1, []⟩]).isOk = true := by
  decide

/-- C1 amended: Snapshot construction fails with StructuralError, returning
no object, whenever the number of distinct edge targets (the parent
dictionary size) differs from the node count minus one, or the child-link
reachability scan does not visit every node; in particular 5 nodes with only
3 edges fail.  (The raw edge count governs the check only through the number
of distinct targets.) -/
theorem c1_amended (ns : List TreeSnapshot.Node) (es : List TreeSnapshot.Edge)
    (h : ((parentDict es).length : Int) ≠ ((dictBy TreeSnapshot.Node.id ns).length : Int) - 1 ∨
      tsConnected (dictBy TreeSnapshot.Node.id ns) (childrenDict es) = false) :
    TreeSnapshot.init ns es = .error .structuralError := by
  unfold TreeSnapshot.init
  rcases h with h | h
  · rw [if_neg h]
  · by_cases h1 : ((parentDict es).length : Int) = ((dictBy TreeSnapshot.Node.id ns).length : Int) - 1
    · rw [if_pos h1, if_neg (by simp [h])]
    · rw [if_neg h1]

/-- C1 witness: the malformed input of Scenario C, 5 nodes with only 3
edges, fails construction with StructuralError. -/
theorem c1_witness :
    ((((parentDict [⟨0, 0, 1, []⟩, ⟨1, 0, 2, []⟩, ⟨2, 0, 3, []⟩]).length : Int) ≠
      ((dictBy TreeSnapshot.Node.id [⟨0, [], Option.none⟩, ⟨1, [], Option.none⟩,
        ⟨2, [], Option.none⟩, ⟨3, [], Option.none⟩, ⟨4, [], Option.none⟩]).length : Int) - 1) ∨
      tsConnected (dictBy TreeSnapshot.Node.id [⟨0, [], Option.none⟩, ⟨1, [], Option.none⟩,
        ⟨2, [], Option.none⟩, ⟨3, [], Option.none⟩, ⟨4, [], Option.none⟩])
        (childrenDict [⟨0, 0, 1, []⟩, ⟨1, 0, 2, []⟩, ⟨2, 0, 3, []⟩]) = false) ∧
    TreeSnapshot.init [⟨0, [], Option.none⟩, ⟨1, [], Option.none⟩, ⟨2, [], Option.none⟩,
        ⟨3, [], Option.none⟩, ⟨4, [], Option.none⟩]
      [⟨0, 0, 1, []⟩, ⟨1, 0, 2, []⟩, ⟨2, 0, 3, []⟩] = .error .structuralError :=
  ⟨by decide, c1_amended _ _ (by decide)⟩

/-- Modelled from the spec: the reachability scan as the spec describes it,
traversing the union of parent and child links (undirected) from a single
start node; written only for comparison with the implemented child-link-only
scan. -/
def uscanStep (pd : List (Nat × Nat)) (cd : List (Nat × List Nat)) :
    Nat → List Nat → List Nat → List Nat
  | 0, visited, _ => visited
  | _ + 1, visited, [] => visited
  | fuel + 1, visited, node :: stack =>
      let visited2 := if visited.contains node then visited else visited ++ [node]
      let nbrs := childrenOfD cd node ++ (dlookup pd node).toList
      let fresh := nbrs.filter (fun c => !(visited2.contains c))
      uscanStep pd cd fuel visited2 (fresh.reverse ++ stack)

/-- Modelled from the spec: the undirected connectedness check the spec
attributes to Snapshot construction, accepting when the undirected scan from
the first node visits every node. -/
def undirectedConnected (nodesD : List (Nat × TreeSnapshot.Node)) (pd : List (Nat × Nat))
    (cd : List (Nat × List Nat)) : Bool :=
  match nodesD with
  | [] => false
  | (key, _) :: _ =>
      (uscanStep pd cd (scanFuel nodesD cd + nodesD.length) [] [key]).length == nodesD.length

/-- C5 counterexample: the implemented scan follows only child links from
the first node of the node collection, not the undirected union, so it is
not start-node independent: for the valid two-node tree with root 0 and
edge 0 to 1, the undirected check of the spec accepts when the child is
listed first, yet construction fails with StructuralError; the same tree
listed root-first succeeds. -/
theorem c5_counterexample :
    undirectedConnected (dictBy TreeSnapshot.Node.id [⟨1, [], Option.none⟩, ⟨0, [], Option.none⟩])
        (parentDict [⟨0, 0, 1, []⟩]) (childrenDict [⟨0, 0, 1, []⟩]) = true ∧
    TreeSnapshot.init [⟨1, [], Option.none⟩, ⟨0, [], Option.none⟩] [⟨0, 0, 1, []⟩] =
      .error .structuralError ∧
    (TreeSnapshot.init [⟨0, [], Option.none⟩, ⟨1, [], Option.none⟩] [⟨0, 0, 1, []⟩]).isOk = true := by
  decide

/-- C5 amended: the Snapshot connectivity check traverses only child links,
starting from the first node of the node dictionary, and construction
succeeds exactly when the parent dictionary has node-count-minus-one entries
and that child-link scan visits every node; success therefore depends on
which node comes first, and listing a non-root first can fail a valid
tree. -/
theorem c5_amended (ns : List TreeSnapshot.Node) (es : List TreeSnapshot.Edge) :
    (TreeSnapshot.init ns es).isOk = true ↔
      (((parentDict es).length : Int) = ((dictBy TreeSnapshot.Node.id ns).length : Int) - 1 ∧
        tsConnected (dictBy TreeSnapshot.Node.id ns) (childrenDict es) = true) := by
  unfold TreeSnapshot.init
  by_cases h1 : ((parentDict es).length : Int) = ((dictBy TreeSnapshot.Node.id ns).length : Int) - 1
  · rw [if_pos h1]
    by_cases h2 : tsConnected (dictBy TreeSnapshot.Node.id ns) (childrenDict es) = true
    · rw [if_pos h2]
      simp [Except.isOk, Except.toBool, h1, h2]
    · rw [if_neg h2]
      simp [Except.isOk, Except.toBool, h1, h2]
  · rw [if_neg h1]
    simp [Except.isOk, Except.toBool, h1]

/-- C3 counterexample: with the default edge-data factory, a child node
missing both reward-detail fields makes get_reward_details return None,
whose double-star unpacking raises TypeError, so the whole MCTS conversion
fails with an error that is none of StructuralError, NotFound or
UnsupportedStateType, contradicting the claim that missing reward-detail
fields never cause the conversion to fail. -/
theorem c3_counterexample :
    TreeLog.from_mcts_results
        ⟨MCTSNode.mk 0 StateVal.none
            (some [MCTSNode.mk 1 StateVal.none Option.none (some 1) (some 1)
              Option.none Option.none])
            Option.none Option.none Option.none Option.none,
          Option.none, Option.none⟩ Option.none Option.none = .error .typeError ∧
    VizError.typeError ≠ VizError.structuralError ∧
    VizError.typeError ≠ VizError.notFound ∧
    VizError.typeError ≠ VizError.unsupportedStateType := by
  decide

/-- C3 amended: the default edge-data factory succeeds exactly when the
node carries both a Q and a reward attribute and at least one of the two
reward-detail attributes; a missing Q or reward raises AttributeError and
two missing reward-detail fields raise TypeError.  Only an edge-data
mapping lacking the Q key (possible with a custom factory) degrades via the
negative-infinity sentinel during edge selection. -/
theorem c3_amended (n : MCTSNode) :
    (default_edge_data_factory n).isOk = true ↔
      (n.q.isSome = true ∧ n.reward.isSome = true ∧
        (n.reward_details.isSome = true ∨ n.fast_reward_details.isSome = true)) := by
  cases n with
  | mk i st ch qv rv rd fd =>
      cases qv <;> cases rv <;> cases rd <;> cases fd <;>
        simp [default_edge_data_factory, get_reward_details, MCTSNode.q, MCTSNode.reward,
          MCTSNode.reward_details, MCTSNode.fast_reward_details, Except.isOk, Except.toBool]

/-- C10: in all three adapters, a falsy state (absent or None, an empty
sequence, an empty mapping) makes the default node-data factory return an
empty data mapping at once, before any named-field, sequence or mapping
conversion, so no UnsupportedStateType is raised. -/
theorem c10 :
    (∀ n : MCTSNode, n.state.falsy = true → default_node_data_factory_mcts n = .ok []) ∧
    (∀ n : SearchTreeNode, n.state.falsy = true →
      default_node_data_factory_bs n = .ok [] ∧ default_node_data_factory_dfs n = .ok []) := by
  constructor
  · intro n h
    unfold default_node_data_factory_mcts state_to_data
    rw [if_pos h]
  · intro n h
    constructor
    · unfold default_node_data_factory_bs state_to_data
      rw [if_pos h]
    · unfold default_node_data_factory_dfs state_to_data
      rw [if_pos h]

/-- C10 witness: a node with an empty-sequence state and a node with a None
state both get an empty data mapping from the default factories. -/
theorem c10_witness :
    (MCTSNode.mk 0 (StateVal.seq []) Option.none Option.none Option.none
        Option.none Option.none).state.falsy = true ∧
    default_node_data_factory_mcts (MCTSNode.mk 0 (StateVal.seq []) Option.none Option.none
        Option.none Option.none Option.none) = .ok [] ∧
    (SearchTreeNode.mk 0 StateVal.none [] 0 "a").state.falsy = true ∧
    default_node_data_factory_bs (SearchTreeNode.mk 0 StateVal.none [] 0 "a") = .ok [] ∧
    default_node_data_factory_dfs (SearchTreeNode.mk 0 StateVal.none [] 0 "a") = .ok [] :=
  ⟨by decide, c10.1 _ (by decide), by decide,
    (c10.2 (SearchTreeNode.mk 0 StateVal.none [] 0 "a") (by decide)).1,
    (c10.2 (SearchTreeNode.mk 0 StateVal.none [] 0 "a") (by decide)).2⟩

/-- C6: encoding a log yields exactly an object with the single key logs
holding the snapshot list; a snapshot encodes as only its node and edge
mappings, so two snapshots agreeing on nodes and edges encode identically
whatever their derived parent and children indices hold; a node encodes
with exactly the keys id, data and selected_edge, the last JSON null when
unset; an edge encodes with exactly the keys id, source, target and data. -/
theorem c6 :
    (∀ l : TreeLog, encodeTreeLog l = .obj [("logs", .arr (l.snapshots.map encodeSnapshot))]) ∧
    (∀ s1 s2 : TreeSnapshot, s1.nodes = s2.nodes → s1.edges = s2.edges →
      encodeSnapshot s1 = encodeSnapshot s2) ∧
    (∀ s : TreeSnapshot, objKeys (encodeSnapshot s) = ["nodes", "edges"]) ∧
    (∀ n : TreeSnapshot.Node, objKeys (encodeNode n) = ["id", "data", "selected_edge"] ∧
      (n.selected_edge = Option.none →
        encodeNode n = .obj [("id", .num (n.id : Rat)), ("data", encodeNodeData n.data),
          ("selected_edge", .null)])) ∧
    (∀ e : TreeSnapshot.Edge,
      objKeys (encodeEdge e) = ["id", "source", "target", "data"]) := by
  refine ⟨fun l => rfl, ?_, fun s => rfl, ?_, fun e => rfl⟩
  · intro s1 s2 hn he
    unfold encodeSnapshot
    rw [hn, he]
  · intro n
    refine ⟨rfl, ?_⟩
    intro h
    unfold encodeNode
    rw [h]

/-- C6 witness: two snapshots with the same node and edge dictionaries but
different parent indices are different objects yet encode identically. -/
theorem c6_witness :
    (⟨[], [], [], []⟩ : TreeSnapshot).nodes = (⟨[], [], [(0, 0)], []⟩ : TreeSnapshot).nodes ∧
    (⟨[], [], [], []⟩ : TreeSnapshot).edges = (⟨[], [], [(0, 0)], []⟩ : TreeSnapshot).edges ∧
    (⟨[], [], [], []⟩ : TreeSnapshot) ≠ (⟨[], [], [(0, 0)], []⟩ : TreeSnapshot) ∧
    encodeSnapshot ⟨[], [], [], []⟩ = encodeSnapshot ⟨[], [], [(0, 0)], []⟩ :=
  ⟨rfl, rfl, by decide, c6.2.1 ⟨[], [], [], []⟩ ⟨[], [], [(0, 0)], []⟩ rfl rfl⟩

/-- C9: handed a sequence of beam-search results, the adapter converts only
element zero, ignoring all later results (converting the sequence headed by
r equals converting r alone), and every successful conversion returns a log
of length exactly one. -/
theorem c9 :
    (∀ (r : BeamSearchResult) (rest : List BeamSearchResult)
        (ndf : Option (SearchTreeNode → Except VizError NodeData))
        (edf : Option (SearchTreeNode → Except VizError EdgeData)),
      TreeLog.from_beam_search_results (Sum.inr (r :: rest)) ndf edf =
        TreeLog.from_beam_search_results (Sum.inl r) ndf edf) ∧
    (∀ (input : Sum BeamSearchResult (List BeamSearchResult))
        (ndf : Option (SearchTreeNode → Except VizError NodeData))
        (edf : Option (SearchTreeNode → Except VizError EdgeData))
        (log : TreeLog),
      TreeLog.from_beam_search_results input ndf edf = .ok log → log.length = 1) := by
  constructor
  · intro r rest ndf edf
    rfl
  · have tail : ∀ (r : BeamSearchResult)
        (ndf : Option (SearchTreeNode → Except VizError NodeData))
        (edf : Option (SearchTreeNode → Except VizError EdgeData))
        (log : TreeLog),
        TreeLog.from_beam_search_results (Sum.inl r) ndf edf = .ok log → log.length = 1 := by
      intro r ndf edf log h
      unfold TreeLog.from_beam_search_results at h
      simp only [Bind.bind, Except.bind, Pure.pure, Except.pure] at h
      cases hw : allNodesBS (ndf.getD default_node_data_factory_bs)
          (edf.getD default_edge_data_factory_bs) r.tree [] [] with
      | error e => rw [hw] at h; cases h
      | ok out =>
          rw [hw] at h
          dsimp only at h
          cases hi : TreeSnapshot.init (out.1.map Prod.snd) out.2 with
          | error e => rw [hi] at h; cases h
          | ok tree =>
              rw [hi] at h
              injection h with h2
              rw [← h2]
              rfl
    intro input ndf edf log h
    rcases input with r | rs
    · exact tail r ndf edf log h
    · cases rs with
      | nil =>
          unfold TreeLog.from_beam_search_results at h
          simp only [Bind.bind, Except.bind, Pure.pure, Except.pure] at h
          cases h
      | cons r rest =>
          have he : TreeLog.from_beam_search_results (Sum.inr (r :: rest)) ndf edf =
              TreeLog.from_beam_search_results (Sum.inl r) ndf edf := rfl
          rw [he] at h
          exact tail r ndf edf log h

/-- C9 witness: converting a single-root beam-search result succeeds and the
resulting log has length one. -/
theorem c9_witness :
    TreeLog.from_beam_search_results (Sum.inl ⟨SearchTreeNode.mk 0 StateVal.none [] 0 "a"⟩)
        Option.none Option.none =
      .ok ⟨[⟨[(0, ⟨0, [], Option.none⟩)], [], [], []⟩]⟩ ∧
    TreeLog.length ⟨[⟨[(0, ⟨0, [], Option.none⟩)], [], [], []⟩]⟩ = 1 :=
  ⟨by decide,
    c9.2 (Sum.inl ⟨SearchTreeNode.mk 0 StateVal.none [] 0 "a"⟩) Option.none Option.none
      ⟨[⟨[(0, ⟨0, [], Option.none⟩)], [], [], []⟩]⟩ (by decide)⟩

mutual

theorem allNodesBS_edgeIds (ndf : SearchTreeNode → Except VizError NodeData)
    (edf : SearchTreeNode → Except VizError EdgeData) (n : SearchTreeNode)
    (nodesAcc : List (Nat × TreeSnapshot.Node)) (edgesAcc : List TreeSnapshot.Edge)
    (out : List (Nat × TreeSnapshot.Node) × List TreeSnapshot.Edge)
    (h : allNodesBS ndf edf n nodesAcc edgesAcc = .ok out)
    (he : edgesAcc.map TreeSnapshot.Edge.id = List.range edgesAcc.length) :
    out.2.map TreeSnapshot.Edge.id = List.range out.2.length := by
  cases n with
  | mk i st cs rv av =>
      unfold allNodesBS at h
      cases hndf : ndf (.mk i st cs rv av) with
      | error e => rw [hndf] at h; cases h
      | ok nd =>
          rw [hndf] at h
          dsimp only at h
          exact allNodesListBS_edgeIds ndf edf i cs _ _ out h he

theorem allNodesListBS_edgeIds (ndf : SearchTreeNode → Except VizError NodeData)
    (edf : SearchTreeNode → Except VizError EdgeData) (pid : Nat)
    (cs : List SearchTreeNode)
    (nodesAcc : List (Nat × TreeSnapshot.Node)) (edgesAcc : List TreeSnapshot.Edge)
    (out : List (Nat × TreeSnapshot.Node) × List TreeSnapshot.Edge)
    (h : allNodesListBS ndf edf pid cs nodesAcc edgesAcc = .ok out)
    (he : edgesAcc.map TreeSnapshot.Edge.id = List.range edgesAcc.length) :
    out.2.map TreeSnapshot.Edge.id = List.range out.2.length := by
  cases cs with
  | nil =>
      unfold allNodesListBS at h
      injection h with h2
      rw [← h2]
      exact he
  | cons c rest =>
      unfold allNodesListBS at h
      cases hedf : edf c with
      | error e => rw [hedf] at h; cases h
      | ok ed =>
          rw [hedf] at h
          dsimp only at h
          cases hrec : allNodesBS ndf edf c nodesAcc
              (edgesAcc ++ [(⟨edgesAcc.length, pid, c.id, ed⟩ : TreeSnapshot.Edge)]) with
          | error e => rw [hrec] at h; cases h
          | ok out1 =>
              obtain ⟨ns2, es2⟩ := out1
              rw [hrec] at h
              dsimp only at h
              have he2 : (edgesAcc ++ [(⟨edgesAcc.length, pid, c.id, ed⟩ : TreeSnapshot.Edge)]).map
                  TreeSnapshot.Edge.id =
                  List.range (edgesAcc ++
                    [(⟨edgesAcc.length, pid, c.id, ed⟩ : TreeSnapshot.Edge)]).length := by
                rw [List.map_append, he]
                simp [List.range_succ]
              have h1 := allNodesBS_edgeIds ndf edf c nodesAcc _ (ns2, es2) hrec he2
              exact allNodesListBS_edgeIds ndf edf pid rest ns2 es2 out h h1

end

mutual

theorem allNodesMCTS_edgeIds (ndf : MCTSNode → Except VizError NodeData)
    (edf : MCTSNode → Except VizError EdgeData) (n : MCTSNode)
    (nodesAcc : List (Nat × TreeSnapshot.Node)) (edgesAcc : List TreeSnapshot.Edge)
    (out : List (Nat × TreeSnapshot.Node) × List TreeSnapshot.Edge)
    (h : allNodesMCTS ndf edf n nodesAcc edgesAcc = .ok out)
    (he : edgesAcc.map TreeSnapshot.Edge.id = List.range edgesAcc.length) :
    out.2.map TreeSnapshot.Edge.id = List.range out.2.length := by
  cases n with
  | mk i st ch qv rv rd fd =>
      unfold allNodesMCTS at h
      cases hndf : ndf (.mk i st ch qv rv rd fd) with
      | error e => rw [hndf] at h; cases h
      | ok nd =>
          rw [hndf] at h
          dsimp only at h
          cases ch with
          | none =>
              injection h with h2
              rw [← h2]
              exact he
          | some cs =>
              exact allNodesListMCTS_edgeIds ndf edf i cs _ _ out h he

theorem allNodesListMCTS_edgeIds (ndf : MCTSNode → Except VizError NodeData)
    (edf : MCTSNode → Except VizError EdgeData) (pid : Nat) (cs : List MCTSNode)
    (nodesAcc : List (Nat × TreeSnapshot.Node)) (edgesAcc : List TreeSnapshot.Edge)
    (out : List (Nat × TreeSnapshot.Node) × List TreeSnapshot.Edge)
    (h : allNodesListMCTS ndf edf pid cs nodesAcc edgesAcc = .ok out)
    (he : edgesAcc.map TreeSnapshot.Edge.id = List.range edgesAcc.length) :
    out.2.map TreeSnapshot.Edge.id = List.range out.2.length := by
  cases cs with
  | nil =>
      unfold allNodesListMCTS at h
      injection h with h2
      rw [← h2]
      exact he
  | cons c rest =>
      unfold allNodesListMCTS at h
      cases hedf : edf c with
      | error e => rw [hedf] at h; cases h
      | ok ed =>
          rw [hedf] at h
          dsimp only at h
          cases hrec : allNodesMCTS ndf edf c nodesAcc
              (edgesAcc ++ [(⟨edgesAcc.length, pid, c.id, ed⟩ : TreeSnapshot.Edge)]) with
          | error e => rw [hrec] at h; cases h
          | ok out1 =>
              obtain ⟨ns2, es2⟩ := out1
              rw [hrec] at h
              dsimp only at h
              have he2 : (edgesAcc ++ [(⟨edgesAcc.length, pid, c.id, ed⟩ : TreeSnapshot.Edge)]).map
                  TreeSnapshot.Edge.id =
                  List.range (edgesAcc ++
                    [(⟨edgesAcc.length, pid, c.id, ed⟩ : TreeSnapshot.Edge)]).length := by
                rw [List.map_append, he]
                simp [List.range_succ]
              have h1 := allNodesMCTS_edgeIds ndf edf c nodesAcc _ (ns2, es2) hrec he2
              exact allNodesListMCTS_edgeIds ndf edf pid rest ns2 es2 out h h1

end

mutual

theorem allNodesBS_keys (ndf : SearchTreeNode → Except VizError NodeData)
    (edf : SearchTreeNode → Except VizError EdgeData) (n : SearchTreeNode)
    (nodesAcc : List (Nat × TreeSnapshot.Node)) (edgesAcc : List TreeSnapshot.Edge)
    (out : List (Nat × TreeSnapshot.Node) × List TreeSnapshot.Edge)
    (h : allNodesBS ndf edf n nodesAcc edgesAcc = .ok out)
    (hnd : (preorderIdsBS n).Nodup)
    (hdisj : ∀ i ∈ nodesAcc.map Prod.fst, i ∉ preorderIdsBS n) :
    out.1.map Prod.fst = nodesAcc.map Prod.fst ++ preorderIdsBS n := by
  cases n with
  | mk i st cs rv av =>
      unfold allNodesBS at h
      cases hndf : ndf (.mk i st cs rv av) with
      | error e => rw [hndf] at h; cases h
      | ok nd =>
          rw [hndf] at h
          dsimp only at h
          have hpre : preorderIdsBS (.mk i st cs rv av) = i :: preorderIdsListBS cs := rfl
          rw [hpre] at hnd hdisj ⊢
          have hnd2 := List.nodup_cons.mp hnd
          have hi_notin : i ∉ nodesAcc.map Prod.fst := fun hc =>
            hdisj i hc (List.mem_cons_self i _)
          have hins : dinsert nodesAcc i (⟨i, nd, Option.none⟩ : TreeSnapshot.Node) =
              nodesAcc ++ [(i, ⟨i, nd, Option.none⟩)] := dinsert_of_not_mem _ _ _ hi_notin
          rw [hins] at h
          have hd2 : ∀ j ∈ (nodesAcc ++
              [(i, (⟨i, nd, Option.none⟩ : TreeSnapshot.Node))]).map Prod.fst,
              j ∉ preorderIdsListBS cs := by
            intro j hj
            rw [List.map_append] at hj
            rcases List.mem_append.mp hj with hj2 | hj2
            · intro hc
              exact hdisj j hj2 (List.mem_cons_of_mem i hc)
            · simp only [List.map_cons, List.map_nil, List.mem_singleton] at hj2
              subst hj2
              exact hnd2.1
          have hlist := allNodesListBS_keys ndf edf i cs _ _ out h hnd2.2 hd2
          rw [hlist]
          simp

theorem allNodesListBS_keys (ndf : SearchTreeNode → Except VizError NodeData)
    (edf : SearchTreeNode → Except VizError EdgeData) (pid : Nat)
    (cs : List SearchTreeNode)
    (nodesAcc : List (Nat × TreeSnapshot.Node)) (edgesAcc : List TreeSnapshot.Edge)
    (out : List (Nat × TreeSnapshot.Node) × List TreeSnapshot.Edge)
    (h : allNodesListBS ndf edf pid cs nodesAcc edgesAcc = .ok out)
    (hnd : (preorderIdsListBS cs).Nodup)
    (hdisj : ∀ i ∈ nodesAcc.map Prod.fst, i ∉ preorderIdsListBS cs) :
    out.1.map Prod.fst = nodesAcc.map Prod.fst ++ preorderIdsListBS cs := by
  cases cs with
  | nil =>
      unfold allNodesListBS at h
      injection h with h2
      rw [← h2]
      simp [preorderIdsListBS]
  | cons c rest =>
      unfold allNodesListBS at h
      cases hedf : edf c with
      | error e => rw [hedf] at h; cases h
      | ok ed =>
          rw [hedf] at h
          dsimp only at h
          cases hrec : allNodesBS ndf edf c nodesAcc
              (edgesAcc ++ [(⟨edgesAcc.length, pid, c.id, ed⟩ : TreeSnapshot.Edge)]) with
          | error e => rw [hrec] at h; cases h
          | ok out1 =>
              obtain ⟨ns2, es2⟩ := out1
              rw [hrec] at h
              dsimp only at h
              have hpre : preorderIdsListBS (c :: rest) =
                  preorderIdsBS c ++ preorderIdsListBS rest := rfl
              rw [hpre] at hnd hdisj ⊢
              rw [List.nodup_append] at hnd
              have hd1 : ∀ j ∈ nodesAcc.map Prod.fst, j ∉ preorderIdsBS c := by
                intro j hj hc
                exact hdisj j hj (List.mem_append_left _ hc)
              have h1 := allNodesBS_keys ndf edf c nodesAcc _ (ns2, es2) hrec hnd.1 hd1
              dsimp only at h1
              have hd2 : ∀ j ∈ ns2.map Prod.fst, j ∉ preorderIdsListBS rest := by
                intro j hj
                rw [h1] at hj
                rcases List.mem_append.mp hj with hj2 | hj2
                · intro hc
                  exact hdisj j hj2 (List.mem_append_right _ hc)
                · exact fun hc => hnd.2.2 hj2 hc
              have h2 := allNodesListBS_keys ndf edf pid rest ns2 es2 out h hnd.2.1 hd2
              rw [h2, h1, List.append_assoc]

end

mutual

theorem allNodesMCTS_keys (ndf : MCTSNode → Except VizError NodeData)
    (edf : MCTSNode → Except VizError EdgeData) (n : MCTSNode)
    (nodesAcc : List (Nat × TreeSnapshot.Node)) (edgesAcc : List TreeSnapshot.Edge)
    (out : List (Nat × TreeSnapshot.Node) × List TreeSnapshot.Edge)
    (h : allNodesMCTS ndf edf n nodesAcc edgesAcc = .ok out)
    (hnd : (preorderIdsM n).Nodup)
    (hdisj : ∀ i ∈ nodesAcc.map Prod.fst, i ∉ preorderIdsM n) :
    out.1.map Prod.fst = nodesAcc.map Prod.fst ++ preorderIdsM n := by
  cases n with
  | mk i st ch qv rv rd fd =>
      unfold allNodesMCTS at h
      cases hndf : ndf (.mk i st ch qv rv rd fd) with
      | error e => rw [hndf] at h; cases h
      | ok nd =>
          rw [hndf] at h
          dsimp only at h
          cases ch with
          | none =>
              injection h with h2
              have hi_notin : i ∉ nodesAcc.map Prod.fst := fun hc =>
                hdisj i hc (by simp [preorderIdsM])
              have hins : dinsert nodesAcc i (⟨i, nd, Option.none⟩ : TreeSnapshot.Node) =
                  nodesAcc ++ [(i, ⟨i, nd, Option.none⟩)] := dinsert_of_not_mem _ _ _ hi_notin
              rw [← h2]
              dsimp only
              rw [hins]
              simp [preorderIdsM]
          | some cs =>
              have hpre : preorderIdsM (.mk i st (some cs) qv rv rd fd) =
                  i :: preorderIdsListM cs := rfl
              rw [hpre] at hnd hdisj ⊢
              have hnd2 := List.nodup_cons.mp hnd
              have hi_notin : i ∉ nodesAcc.map Prod.fst := fun hc =>
                hdisj i hc (List.mem_cons_self i _)
              have hins : dinsert nodesAcc i (⟨i, nd, Option.none⟩ : TreeSnapshot.Node) =
                  nodesAcc ++ [(i, ⟨i, nd, Option.none⟩)] := dinsert_of_not_mem _ _ _ hi_notin
              rw [hins] at h
              have hd2 : ∀ j ∈ (nodesAcc ++
                  [(i, (⟨i, nd, Option.none⟩ : TreeSnapshot.Node))]).map Prod.fst,
                  j ∉ preorderIdsListM cs := by
                intro j hj
                rw [List.map_append] at hj
                rcases List.mem_append.mp hj with hj2 | hj2
                · intro hc
                  exact hdisj j hj2 (List.mem_cons_of_mem i hc)
                · simp only [List.map_cons, List.map_nil, List.mem_singleton] at hj2
                  subst hj2
                  exact hnd2.1
              have hlist := allNodesListMCTS_keys ndf edf i cs _ _ out h hnd2.2 hd2
              rw [hlist]
              simp

theorem allNodesListMCTS_keys (ndf : MCTSNode → Except VizError NodeData)
    (edf : MCTSNode → Except VizError EdgeData) (pid : Nat) (cs : List MCTSNode)
    (nodesAcc : List (Nat × TreeSnapshot.Node)) (edgesAcc : List TreeSnapshot.Edge)
    (out : List (Nat × TreeSnapshot.Node) × List TreeSnapshot.Edge)
    (h : allNodesListMCTS ndf edf pid cs nodesAcc edgesAcc = .ok out)
    (hnd : (preorderIdsListM cs).Nodup)
    (hdisj : ∀ i ∈ nodesAcc.map Prod.fst, i ∉ preorderIdsListM cs) :
    out.1.map Prod.fst = nodesAcc.map Prod.fst ++ preorderIdsListM cs := by
  cases cs with
  | nil =>
      unfold allNodesListMCTS at h
      injection h with h2
      rw [← h2]
      simp [preorderIdsListM]
  | cons c rest =>
      unfold allNodesListMCTS at h
      cases hedf : edf c with
      | error e => rw [hedf] at h; cases h
      | ok ed =>
          rw [hedf] at h
          dsimp only at h
          cases hrec : allNodesMCTS ndf edf c nodesAcc
              (edgesAcc ++ [(⟨edgesAcc.length, pid, c.id, ed⟩ : TreeSnapshot.Edge)]) with
          | error e => rw [hrec] at h; cases h
          | ok out1 =>
              obtain ⟨ns2, es2⟩ := out1
              rw [hrec] at h
              dsimp only at h
              have hpre : preorderIdsListM (c :: rest) =
                  preorderIdsM c ++ preorderIdsListM rest := rfl
              rw [hpre] at hnd hdisj ⊢
              rw [List.nodup_append] at hnd
              have hd1 : ∀ j ∈ nodesAcc.map Prod.fst, j ∉ preorderIdsM c := by
                intro j hj hc
                exact hdisj j hj (List.mem_append_left _ hc)
              have h1 := allNodesMCTS_keys ndf edf c nodesAcc _ (ns2, es2) hrec hnd.1 hd1
              dsimp only at h1
              have hd2 : ∀ j ∈ ns2.map Prod.fst, j ∉ preorderIdsListM rest := by
                intro j hj
                rw [h1] at hj
                rcases List.mem_append.mp hj with hj2 | hj2
                · intro hc
                  exact hdisj j hj2 (List.mem_append_right _ hc)
                · exact fun hc => hnd.2.2 hj2 hc
              have h2 := allNodesListMCTS_keys ndf edf pid rest ns2 es2 out h hnd.2.1 hd2
              rw [h2, h1, List.append_assoc]

end

mutual

theorem allNodesBS_selNone (ndf : SearchTreeNode → Except VizError NodeData)
    (edf : SearchTreeNode → Except VizError EdgeData) (n : SearchTreeNode)
    (nodesAcc : List (Nat × TreeSnapshot.Node)) (edgesAcc : List TreeSnapshot.Edge)
    (out : List (Nat × TreeSnapshot.Node) × List TreeSnapshot.Edge)
    (h : allNodesBS ndf edf n nodesAcc edgesAcc = .ok out)
    (hacc : ∀ p ∈ nodesAcc, p.2.selected_edge = Option.none) :
    ∀ p ∈ out.1, p.2.selected_edge = Option.none := by
  cases n with
  | mk i st cs rv av =>
      unfold allNodesBS at h
      cases hndf : ndf (.mk i st cs rv av) with
      | error e => rw [hndf] at h; cases h
      | ok nd =>
          rw [hndf] at h
          dsimp only at h
          have hacc2 : ∀ p ∈ dinsert nodesAcc i (⟨i, nd, Option.none⟩ : TreeSnapshot.Node),
              p.2.selected_edge = Option.none := by
            intro p hp
            rcases mem_dinsert hp with hp2 | hp2
            · exact hacc p hp2
            · rw [hp2]
          exact allNodesListBS_selNone ndf edf i cs _ _ out h hacc2

theorem allNodesListBS_selNone (ndf : SearchTreeNode → Except VizError NodeData)
    (edf : SearchTreeNode → Except VizError EdgeData) (pid : Nat)
    (cs : List SearchTreeNode)
    (nodesAcc : List (Nat × TreeSnapshot.Node)) (edgesAcc : List TreeSnapshot.Edge)
    (out : List (Nat × TreeSnapshot.Node) × List TreeSnapshot.Edge)
    (h : allNodesListBS ndf edf pid cs nodesAcc edgesAcc = .ok out)
    (hacc : ∀ p ∈ nodesAcc, p.2.selected_edge = Option.none) :
    ∀ p ∈ out.1, p.2.selected_edge = Option.none := by
  cases cs with
  | nil =>
      unfold allNodesListBS at h
      injection h with h2
      rw [← h2]
      exact hacc
  | cons c rest =>
      unfold allNodesListBS at h
      cases hedf : edf c with
      | error e => rw [hedf] at h; cases h
      | ok ed =>
          rw [hedf] at h
          dsimp only at h
          cases hrec : allNodesBS ndf edf c nodesAcc
              (edgesAcc ++ [(⟨edgesAcc.length, pid, c.id, ed⟩ : TreeSnapshot.Edge)]) with
          | error e => rw [hrec] at h; cases h
          | ok out1 =>
              obtain ⟨ns2, es2⟩ := out1
              rw [hrec] at h
              dsimp only at h
              have h1 := allNodesBS_selNone ndf edf c nodesAcc _ (ns2, es2) hrec hacc
              exact allNodesListBS_selNone ndf edf pid rest ns2 es2 out h h1

end

mutual

theorem allNodesMCTS_selNone (ndf : MCTSNode → Except VizError NodeData)
    (edf : MCTSNode → Except VizError EdgeData) (n : MCTSNode)
    (nodesAcc : List (Nat × TreeSnapshot.Node)) (edgesAcc : List TreeSnapshot.Edge)
    (out : List (Nat × TreeSnapshot.Node) × List TreeSnapshot.Edge)
    (h : allNodesMCTS ndf edf n nodesAcc edgesAcc = .ok out)
    (hacc : ∀ p ∈ nodesAcc, p.2.selected_edge = Option.none) :
    ∀ p ∈ out.1, p.2.selected_edge = Option.none := by
  cases n with
  | mk i st ch qv rv rd fd =>
      unfold allNodesMCTS at h
      cases hndf : ndf (.mk i st ch qv rv rd fd) with
      | error e => rw [hndf] at h; cases h
      | ok nd =>
          rw [hndf] at h
          dsimp only at h
          have hacc2 : ∀ p ∈ dinsert nodesAcc i (⟨i, nd, Option.none⟩ : TreeSnapshot.Node),
              p.2.selected_edge = Option.none := by
            intro p hp
            rcases mem_dinsert hp with hp2 | hp2
            · exact hacc p hp2
            · rw [hp2]
          cases ch with
          | none =>
              injection h with h2
              rw [← h2]
              exact hacc2
          | some cs =>
              exact allNodesListMCTS_selNone ndf edf i cs _ _ out h hacc2

theorem allNodesListMCTS_selNone (ndf : MCTSNode → Except VizError NodeData)
    (edf : MCTSNode → Except VizError EdgeData) (pid : Nat) (cs : List MCTSNode)
    (nodesAcc : List (Nat × TreeSnapshot.Node)) (edgesAcc : List TreeSnapshot.Edge)
    (out : List (Nat × TreeSnapshot.Node) × List TreeSnapshot.Edge)
    (h : allNodesListMCTS ndf edf pid cs nodesAcc edgesAcc = .ok out)
    (hacc : ∀ p ∈ nodesAcc, p.2.selected_edge = Option.none) :
    ∀ p ∈ out.1, p.2.selected_edge = Option.none := by
  cases cs with
  | nil =>
      unfold allNodesListMCTS at h
      injection h with h2
      rw [← h2]
      exact hacc
  | cons c rest =>
      unfold allNodesListMCTS at h
      cases hedf : edf c with
      | error e => rw [hedf] at h; cases h
      | ok ed =>
          rw [hedf] at h
          dsimp only at h
          cases hrec : allNodesMCTS ndf edf c nodesAcc
              (edgesAcc ++ [(⟨edgesAcc.length, pid, c.id, ed⟩ : TreeSnapshot.Edge)]) with
          | error e => rw [hrec] at h; cases h
          | ok out1 =>
              obtain ⟨ns2, es2⟩ := out1
              rw [hrec] at h
              dsimp only at h
              have h1 := allNodesMCTS_selNone ndf edf c nodesAcc _ (ns2, es2) hrec hacc
              exact allNodesListMCTS_selNone ndf edf pid rest ns2 es2 out h h1

end

/-- C2 counterexample: the claim that every visited node is assigned the
next unused NodeId in visitation order is false on the code: the walk keys
each node by the algorithm node's own id, so a DFS result whose root has id
5 and whose only child has id 3 yields snapshot node ids 5 and 3 instead of
the fresh ids 0 and 1. -/
theorem c2_counterexample :
    (TreeLog.from_dfs_results
        ⟨SearchTreeNode.mk 5 StateVal.none [SearchTreeNode.mk 3 StateVal.none [] 1 "a"] 0 "r"⟩
        Option.none Option.none).map
      (fun l => l.snapshots.map (fun s => s.nodes.map Prod.fst)) = .ok [[5, 3]] ∧
    [5, 3] ≠ List.range 2 := by
  decide

/-- C2 amended: in the adapter tree walk (MCTS, beam search and DFS alike),
every visited node is stored under a NodeId equal to the algorithm node's
own id, the node dictionary listing exactly the pre-order visitation ids
when those ids are distinct, while every traversed parent-to-child link is
assigned the next unused EdgeId in traversal order (edge ids are exactly
0, 1, 2, ... in the edge list's order). -/
theorem c2_amended :
    (∀ (ndf : MCTSNode → Except VizError NodeData)
        (edf : MCTSNode → Except VizError EdgeData) (n : MCTSNode)
        (out : List (Nat × TreeSnapshot.Node) × List TreeSnapshot.Edge),
      allNodesMCTS ndf edf n [] [] = .ok out →
      (preorderIdsM n).Nodup →
      (out.1.map Prod.fst = preorderIdsM n ∧
        out.2.map TreeSnapshot.Edge.id = List.range out.2.length)) ∧
    (∀ (ndf : SearchTreeNode → Except VizError NodeData)
        (edf : SearchTreeNode → Except VizError EdgeData) (n : SearchTreeNode)
        (out : List (Nat × TreeSnapshot.Node) × List TreeSnapshot.Edge),
      allNodesBS ndf edf n [] [] = .ok out →
      (preorderIdsBS n).Nodup →
      (out.1.map Prod.fst = preorderIdsBS n ∧
        out.2.map TreeSnapshot.Edge.id = List.range out.2.length)) := by
  constructor
  · intro ndf edf n out h hnd
    constructor
    · have := allNodesMCTS_keys ndf edf n [] [] out h hnd (by simp)
      simpa using this
    · exact allNodesMCTS_edgeIds ndf edf n [] [] out h (by simp)
  · intro ndf edf n out h hnd
    constructor
    · have := allNodesBS_keys ndf edf n [] [] out h hnd (by simp)
      simpa using this
    · exact allNodesBS_edgeIds ndf edf n [] [] out h (by simp)

/-- C2 witness: a concrete two-node DFS walk and a concrete two-node MCTS
walk, with distinct algorithm ids 5 and 3, produce node dictionaries keyed
5 then 3 (their pre-order ids) and a single edge with id 0. -/
theorem c2_witness :
    (allNodesMCTS default_node_data_factory_mcts default_edge_data_factory
        (MCTSNode.mk 5 StateVal.none
          (some [MCTSNode.mk 3 StateVal.none Option.none (some 1) (some 1)
            (some []) Option.none])
          Option.none Option.none Option.none Option.none) [] [] =
      .ok ([(5, ⟨5, [], Option.none⟩), (3, ⟨3, [], Option.none⟩)],
        [⟨0, 5, 3, [("Q", JVal.num 1), ("reward", JVal.num 1)]⟩])) ∧
    (preorderIdsM (MCTSNode.mk 5 StateVal.none
        (some [MCTSNode.mk 3 StateVal.none Option.none (some 1) (some 1)
          (some []) Option.none])
        Option.none Option.none Option.none Option.none)).Nodup ∧
    ([(5, (⟨5, [], Option.none⟩ : TreeSnapshot.Node)), (3, ⟨3, [], Option.none⟩)].map
        Prod.fst = preorderIdsM (MCTSNode.mk 5 StateVal.none
        (some [MCTSNode.mk 3 StateVal.none Option.none (some 1) (some 1)
          (some []) Option.none])
        Option.none Option.none Option.none Option.none) ∧
      ([(⟨0, 5, 3, [("Q", JVal.num 1), ("reward", JVal.num 1)]⟩ :
          TreeSnapshot.Edge)].map TreeSnapshot.Edge.id =
        List.range [(⟨0, 5, 3, [("Q", JVal.num 1), ("reward", JVal.num 1)]⟩ :
          TreeSnapshot.Edge)].length)) :=
  ⟨by decide, by decide,
    c2_amended.1 default_node_data_factory_mcts default_edge_data_factory _
      ([(5, ⟨5, [], Option.none⟩), (3, ⟨3, [], Option.none⟩)],
        [⟨0, 5, 3, [("Q", JVal.num 1), ("reward", JVal.num 1)]⟩])
      (by decide) (by decide)⟩

theorem init_ok_inv {ns : List TreeSnapshot.Node} {es : List TreeSnapshot.Edge}
    {s : TreeSnapshot} (h : TreeSnapshot.init ns es = .ok s) :
    s.nodes = dictBy TreeSnapshot.Node.id ns ∧ s.edges = dictBy TreeSnapshot.Edge.id es ∧
    s.parentD = parentDict es ∧ s.childrenD = childrenDict es := by
  unfold TreeSnapshot.init at h
  by_cases h1 : ((parentDict es).length : Int) =
      ((dictBy TreeSnapshot.Node.id ns).length : Int) - 1
  · rw [if_pos h1] at h
    by_cases h2 : tsConnected (dictBy TreeSnapshot.Node.id ns) (childrenDict es) = true
    · rw [if_pos h2] at h
      injection h with h3
      rw [← h3]
      exact ⟨rfl, rfl, rfl, rfl⟩
    · rw [if_neg h2] at h; cases h
  · rw [if_neg h1] at h; cases h

theorem out_edges_of_nodup {es : List TreeSnapshot.Edge} {s : TreeSnapshot}
    (hse : s.edges = dictBy TreeSnapshot.Edge.id es)
    (hnd : (es.map TreeSnapshot.Edge.id).Nodup) (i : Nat) :
    s.out_edges i = es.filter (fun e => decide (e.source = i)) := by
  unfold TreeSnapshot.out_edges
  rw [hse, dictBy_eq_self _ _ hnd, List.map_map]
  have : (Prod.snd ∘ fun e : TreeSnapshot.Edge => (e.id, e)) = id := rfl
  rw [this, List.map_id]

theorem children_iff_out_edges {es : List TreeSnapshot.Edge} {s : TreeSnapshot}
    (hse : s.edges = dictBy TreeSnapshot.Edge.id es)
    (hsc : s.childrenD = childrenDict es)
    (hnd : (es.map TreeSnapshot.Edge.id).Nodup) (i : Nat) :
    s.children i ≠ [] ↔ s.out_edges i ≠ [] := by
  unfold TreeSnapshot.children
  rw [hsc, children_ne_nil_iff, out_edges_of_nodup hse hnd]
  constructor
  · rintro ⟨e, he, hei⟩ hnil
    rw [List.filter_eq_nil_iff] at hnil
    exact hnil e he (by simp [hei])
  · intro hne
    rcases List.exists_mem_of_ne_nil _ hne with ⟨e, he⟩
    have := List.mem_filter.mp he
    exact ⟨e, this.1, by simpa using this.2⟩

/-- C4: after the max-selection highlighting pass over a constructed
snapshot (with the traversal-assigned distinct edge ids), a node with no
outgoing edges is left untouched, never receiving a selected edge, while a
node with at least one outgoing edge and no previously assigned selection
gets exactly the outgoing edge whose data value under the pass's key (Q for
MCTS, reward for beam search and DFS) is maximal, ties broken by the first
encountered edge in the edge dictionary's insertion order (the
traversal-assigned EdgeId order); and the single-root DFS result of
Scenario D yields one snapshot with one node, zero edges and no selected
edge on the root. -/
theorem c4 :
    (∀ (ns : List TreeSnapshot.Node) (es : List TreeSnapshot.Edge) (s : TreeSnapshot)
        (key : String),
      TreeSnapshot.init ns es = .ok s →
      (es.map TreeSnapshot.Edge.id).Nodup →
      ∀ k nd, (k, nd) ∈ s.nodes →
        ((s.out_edges nd.id = [] →
            dlookup (applyMaxSelection s key).nodes k = some nd) ∧
         (nd.selected_edge = Option.none → s.out_edges nd.id ≠ [] →
            ∃ e, e ∈ s.out_edges nd.id ∧
              (∀ x ∈ s.out_edges nd.id,
                okeyLt (selKey e.data key) (selKey x.data key) = false) ∧
              (∃ l1 l2, s.out_edges nd.id = l1 ++ e :: l2 ∧
                ∀ x ∈ l1, okeyLt (selKey x.data key) (selKey e.data key) = true) ∧
              dlookup (applyMaxSelection s key).nodes k =
                some { nd with selected_edge := some e.id }))) ∧
    ((TreeLog.from_dfs_results ⟨SearchTreeNode.mk 0 StateVal.none [] 0 "r"⟩
        Option.none Option.none).map
      (fun l => l.snapshots.map (fun s => (s.nodes, s.edges))) =
      .ok [([(0, ⟨0, [], Option.none⟩)], [])]) := by
  constructor
  · intro ns es s key hinit hnd k nd hmem
    obtain ⟨hsn, hse, _, hsc⟩ := init_ok_inv hinit
    have hknd : (s.nodes.map Prod.fst).Nodup := by
      rw [hsn]; exact keys_nodup_dictBy _ _
    have hfind : s.nodes.find? (fun p => decide (p.1 = k)) = some (k, nd) :=
      find?_eq_of_mem_nodup hknd hmem
    have hgkeys : ∀ p : Nat × TreeSnapshot.Node,
        ((fun p : Nat × TreeSnapshot.Node =>
          if p.2.selected_edge.isNone && !(s.children p.2.id).isEmpty then
            (p.1, { p.2 with selected_edge :=
              (maxByKey (s.out_edges p.2.id) key).map (fun e => e.id) })
          else p) p).1 = p.1 := by
      intro p
      by_cases hc : p.2.selected_edge.isNone && !(s.children p.2.id).isEmpty
      · simp [hc]
      · simp [hc]
    have hlook : dlookup (applyMaxSelection s key).nodes k =
        some (if nd.selected_edge.isNone && !(s.children nd.id).isEmpty then
          { nd with selected_edge :=
            (maxByKey (s.out_edges nd.id) key).map (fun e => e.id) }
        else nd) := by
      unfold applyMaxSelection
      rw [dlookup_map_keyfix _ hgkeys, hfind]
      by_cases hc : nd.selected_edge.isNone && !(s.children nd.id).isEmpty
      · simp only [Option.map_some']
        rw [if_pos hc, if_pos hc]
      · simp only [Option.map_some']
        rw [if_neg hc, if_neg hc]
    constructor
    · intro hout
      have hcnil : s.children nd.id = [] := by
        by_contra hc
        exact ((children_iff_out_edges hse hsc hnd nd.id).mp hc) (by rw [hout])
      rw [hlook, if_neg (by simp [hcnil])]
    · intro hsel hout
      have hcne : s.children nd.id ≠ [] :=
        (children_iff_out_edges hse hsc hnd nd.id).mpr hout
      have hemp : (s.children nd.id).isEmpty = false := by
        cases hc : s.children nd.id with
        | nil => exact absurd hc hcne
        | cons a l => rfl
      have hcond : (nd.selected_edge.isNone && !(s.children nd.id).isEmpty) = true := by
        rw [hsel, hemp]
        rfl
      cases hsfm : specFirstMax key (s.out_edges nd.id) with
      | none =>
          exact absurd ((specFirstMax_none_iff _ _).mp hsfm) hout
      | some e =>
          refine ⟨e, specFirstMax_mem hsfm, specFirstMax_max hsfm,
            specFirstMax_first hsfm, ?_⟩
          rw [hlook, if_pos hcond, maxByKey_eq_specFirstMax, hsfm]
          rfl
  · decide

theorem dlookup_eq_none_iff [DecidableEq k] (d : List (k × a)) (key : k) :
    dlookup d key = Option.none ↔ key ∉ d.map Prod.fst := by
  unfold dlookup
  rw [Option.map_eq_none', List.find?_eq_none]
  constructor
  · intro h hc
    rcases List.mem_map.mp hc with ⟨p, hp, hpk⟩
    have h2 := h p hp
    simp only [decide_eq_true_eq] at h2
    exact h2 hpk
  · intro h p hp
    simp only [decide_eq_true_eq]
    intro hpk
    exact h (hpk ▸ List.mem_map_of_mem Prod.fst hp)

theorem find?_eq_head_filter (p : a → Bool) (l : List a) :
    l.find? p = (l.filter p).head? := by
  induction l with
  | nil => rfl
  | cons x rest ih =>
      by_cases hx : p x = true
      · rw [List.find?_cons_of_pos _ hx, List.filter_cons_of_pos hx]
        rfl
      · rw [List.find?_cons_of_neg _ hx, List.filter_cons_of_neg (by simpa using hx), ih]

/-- C8 counterexample: accessor behaviour does not match the claim on every
constructed Snapshot: nodes 0, 1, 2 with edges 0 to 2, 1 to 2 and 0 to 1
pass both construction assertions (two distinct targets for three nodes and
a connected child scan), yet node 2 has two incoming edges, so it has no
unique parent, and parent(2) returns 1, the source of the last listed edge
targeting it; the root 0 alone fails with RootHasNoParent. -/
theorem c8_counterexample :
    (TreeSnapshot.init [⟨0, [], Option.none⟩, ⟨1, [], Option.none⟩, ⟨2, [], Option.none⟩]
        [⟨0, 0, 2, []⟩, ⟨1, 1, 2, []⟩, ⟨2, 0, 1, []⟩]).map
      (fun s => ((s.in_edges 2).length, s.parent 2, s.parent 0, s.parent 1)) =
      .ok (2, .ok 1, .error .rootHasNoParent, .ok 0) ∧ (2 : Nat) ≠ 1 := by
  decide

/-- C8 amended: on a constructed Snapshot, node(id) and edge(id) fail with
NotFound exactly for ids that are no input node's or edge's id; parent(id)
fails with RootHasNoParent exactly when id is no edge's target (the root of
a well-formed tree, though a constructed Snapshot can have several such
nodes or a node with several incoming edges); when some edge targets id,
parent(id) returns the source of the last listed such edge, which is the
unique parent whenever exactly one edge targets id. -/
theorem c8_amended (ns : List TreeSnapshot.Node) (es : List TreeSnapshot.Edge)
    (s : TreeSnapshot) (h : TreeSnapshot.init ns es = .ok s) :
    (∀ i, (∀ n ∈ ns, n.id ≠ i) → s.node i = .error .notFound) ∧
    (∀ i, (∀ e ∈ es, e.id ≠ i) → s.edge i = .error .notFound) ∧
    (∀ i, s.parent i = .error .rootHasNoParent ↔ ∀ e ∈ es, e.target ≠ i) ∧
    (∀ i e2, es.reverse.find? (fun e => decide (e.target = i)) = some e2 →
      s.parent i = .ok e2.source) ∧
    (∀ i e2, es.filter (fun e => decide (e.target = i)) = [e2] →
      s.parent i = .ok e2.source) := by
  obtain ⟨hsn, hse, hsp, _⟩ := init_ok_inv h
  have hparent : ∀ i, dlookup s.parentD i =
      (es.reverse.find? (fun e => decide (e.target = i))).map TreeSnapshot.Edge.source := by
    intro i
    rw [hsp, parentDict_lookup]
  refine ⟨?_, ?_, ?_, ?_, ?_⟩
  · intro i hi
    unfold TreeSnapshot.node
    have : dlookup s.nodes i = Option.none := by
      rw [dlookup_eq_none_iff, hsn]
      intro hc
      rcases (mem_keys_dictBy _ _ _).mp hc with ⟨n, hn, hni⟩
      exact hi n hn hni
    rw [this]
  · intro i hi
    unfold TreeSnapshot.edge
    have : dlookup s.edges i = Option.none := by
      rw [dlookup_eq_none_iff, hse]
      intro hc
      rcases (mem_keys_dictBy _ _ _).mp hc with ⟨e, he2, hei⟩
      exact hi e he2 hei
    rw [this]
  · intro i
    unfold TreeSnapshot.parent
    rw [hparent i]
    cases hf : es.reverse.find? (fun e => decide (e.target = i)) with
    | none =>
        simp only [Option.map_none']
        rw [List.find?_eq_none] at hf
        constructor
        · intro _ e he hei
          have h2 := hf e (List.mem_reverse.mpr he)
          simp only [decide_eq_true_eq] at h2
          exact h2 hei
        · intro _; trivial
    | some e2 =>
        simp only [Option.map_some']
        constructor
        · intro hc; cases hc
        · intro hall
          have he2 : e2 ∈ es.reverse := List.mem_of_find?_eq_some hf
          have ht : e2.target = i := by simpa using List.find?_some hf
          exact absurd ht (hall e2 (List.mem_reverse.mp he2))
  · intro i e2 hf
    unfold TreeSnapshot.parent
    rw [hparent i, hf]
    rfl
  · intro i e2 hf
    unfold TreeSnapshot.parent
    rw [hparent i, find?_eq_head_filter, List.filter_reverse, hf]
    rfl

/-- Concrete constructed snapshot for the C8 witness: the valid two-node
tree with root 0 and edge 0 to 1 listed root-first. -/
def c8sW : TreeSnapshot :=
  ⟨[(0, ⟨0, [], Option.none⟩), (1, ⟨1, [], Option.none⟩)],
   [(0, ⟨0, 0, 1, []⟩)], [(1, 0)], [(0, [1])]⟩

/-- C8 witness: on the constructed two-node snapshot, unknown ids fail with
NotFound, the root fails with RootHasNoParent, and the child's parent is the
root. -/
theorem c8_witness :
    TreeSnapshot.init [⟨0, [], Option.none⟩, ⟨1, [], Option.none⟩] [⟨0, 0, 1, []⟩] = .ok c8sW ∧
    c8sW.node 5 = .error .notFound ∧
    c8sW.edge 7 = .error .notFound ∧
    c8sW.parent 0 = .error .rootHasNoParent ∧
    c8sW.parent 1 = .ok 0 := by
  have h : TreeSnapshot.init [⟨0, [], Option.none⟩, ⟨1, [], Option.none⟩] [⟨0, 0, 1, []⟩] =
      .ok c8sW := by decide
  have hc := c8_amended _ _ _ h
  exact ⟨h, hc.1 5 (by decide), hc.2.1 7 (by decide), (hc.2.2.1 0).mpr (by decide),
    hc.2.2.2.2 1 ⟨0, 0, 1, []⟩ (by decide)⟩

/-- Concrete constructed snapshot for the C4 witness: a root with two leaf
children whose edges carry rewards 3 and 9 (the shape of Scenario B). -/
def c4sW : TreeSnapshot :=
  ⟨[(0, ⟨0, [], Option.none⟩), (1, ⟨1, [], Option.none⟩), (2, ⟨2, [], Option.none⟩)],
   [(0, ⟨0, 0, 1, [("reward", JVal.num 3)]⟩),
    (1, ⟨1, 0, 2, [("reward", JVal.num 9)]⟩)],
   [(1, 0), (2, 0)],
   [(0, [1, 2])]⟩

/-- C4 witness: on the Scenario B snapshot the max-selection pass gives the
root an outgoing edge that is maximal for the reward key, first among
equals, and stores its id in the root's selected edge. -/
theorem c4_witness :
    TreeSnapshot.init
        [⟨0, [], Option.none⟩, ⟨1, [], Option.none⟩, ⟨2, [], Option.none⟩]
        [⟨0, 0, 1, [("reward", JVal.num 3)]⟩,
          ⟨1, 0, 2, [("reward", JVal.num 9)]⟩] = .ok c4sW ∧
    (([⟨0, 0, 1, [("reward", JVal.num 3)]⟩,
        ⟨1, 0, 2, [("reward", JVal.num 9)]⟩] : List TreeSnapshot.Edge).map
      TreeSnapshot.Edge.id).Nodup ∧
    (0, (⟨0, [], Option.none⟩ : TreeSnapshot.Node)) ∈ c4sW.nodes ∧
    (∃ e, e ∈ c4sW.out_edges (⟨0, [], Option.none⟩ : TreeSnapshot.Node).id ∧
      (∀ x ∈ c4sW.out_edges (⟨0, [], Option.none⟩ : TreeSnapshot.Node).id,
        okeyLt (selKey e.data "reward") (selKey x.data "reward") = false) ∧
      (∃ l1 l2, c4sW.out_edges (⟨0, [], Option.none⟩ : TreeSnapshot.Node).id =
          l1 ++ e :: l2 ∧
        ∀ x ∈ l1, okeyLt (selKey x.data "reward") (selKey e.data "reward") = true) ∧
      dlookup (applyMaxSelection c4sW "reward").nodes 0 =
        some { (⟨0, [], Option.none⟩ : TreeSnapshot.Node) with
          selected_edge := some e.id }) := by
  refine ⟨by decide, by decide, by decide, ?_⟩
  exact (c4.1 [⟨0, [], Option.none⟩, ⟨1, [], Option.none⟩, ⟨2, [], Option.none⟩]
    [⟨0, 0, 1, [("reward", JVal.num 3)]⟩, ⟨1, 0, 2, [("reward", JVal.num 9)]⟩]
    c4sW "reward" (by decide) (by decide) 0 ⟨0, [], Option.none⟩ (by decide)).2 rfl (by decide)

/-- Node-dictionary coherence of a snapshot: every stored node's id equals
its dictionary key, and keys are distinct (true of every dict built by
keying nodes on their ids). -/
def nodesCoh (s : TreeSnapshot) : Prop :=
  (∀ p ∈ s.nodes, p.2.id = p.1) ∧ (s.nodes.map Prod.fst).Nodup

/-- Edge-dictionary coherence of a snapshot. -/
def edgesCoh (s : TreeSnapshot) : Prop :=
  (∀ p ∈ s.edges, p.2.id = p.1) ∧ (s.edges.map Prod.fst).Nodup

/-- Selected-edge validity: every node whose selected edge is set points at
an edge present in the snapshot whose source is that node's id (the spec's
invariant 4). -/
def selValid (s : TreeSnapshot) : Prop :=
  ∀ p ∈ s.nodes, ∀ eid, p.2.selected_edge = some eid →
    ∃ e, dlookup s.edges eid = some e ∧ e.source = p.2.id

theorem mem_out_edges {s : TreeSnapshot} {i : Nat} {e : TreeSnapshot.Edge}
    (h : e ∈ s.out_edges i) : e ∈ s.edges.map Prod.snd ∧ e.source = i := by
  unfold TreeSnapshot.out_edges at h
  have h2 := List.mem_filter.mp h
  exact ⟨h2.1, by simpa using h2.2⟩

theorem edge_lookup_of_mem {s : TreeSnapshot} (he : edgesCoh s) {e : TreeSnapshot.Edge}
    (hmem : e ∈ s.edges.map Prod.snd) : dlookup s.edges e.id = some e := by
  rcases List.mem_map.mp hmem with ⟨p, hp, hpe⟩
  have hk : p.1 = e.id := by
    rw [← hpe]
    exact (he.1 p hp).symm
  have hp2 : (e.id, e) ∈ s.edges := by
    have : p = (e.id, e) := by
      rcases p with ⟨p1, p2⟩
      simp only at hpe hk
      rw [hpe, hk]
    rw [← this]
    exact hp
  exact dlookup_of_mem_nodup he.2 hp2

theorem setSelected_inv {s : TreeSnapshot} {nid : Nat} {e : TreeSnapshot.Edge}
    (hc : nodesCoh s) (he : edgesCoh s) (hv : selValid s)
    (hmem : e ∈ s.out_edges nid) :
    nodesCoh (setSelected s nid (some e.id)) ∧ edgesCoh (setSelected s nid (some e.id)) ∧
      selValid (setSelected s nid (some e.id)) := by
  have hg : ∀ p : Nat × TreeSnapshot.Node,
      ((fun p : Nat × TreeSnapshot.Node =>
        if p.1 = nid then (p.1, { p.2 with selected_edge := some e.id }) else p) p).1 = p.1 := by
    intro p
    by_cases hp : p.1 = nid <;> simp [hp]
  refine ⟨⟨?_, ?_⟩, he, ?_⟩
  · intro p hp
    rcases List.mem_map.mp hp with ⟨q, hq, hqe⟩
    by_cases hqn : q.1 = nid
    · rw [← hqe]
      simp only [hqn, if_pos rfl]
      simpa [hqn] using hc.1 q hq
    · rw [← hqe, if_neg hqn]
      exact hc.1 q hq
  · unfold setSelected
    simp only
    rw [keys_map_keyfix _ hg]
    exact hc.2
  · intro p hp eid hsel
    rcases List.mem_map.mp hp with ⟨q, hq, hqe⟩
    by_cases hqn : q.1 = nid
    · rw [← hqe] at hsel ⊢
      simp only [hqn, if_pos rfl] at hsel ⊢
      injection hsel with h2
      have hout := mem_out_edges hmem
      refine ⟨e, ?_, ?_⟩
      · rw [← h2]
        exact edge_lookup_of_mem he hout.1
      · rw [hout.2]
        exact (hqn ▸ (hc.1 q hq)).symm
    · rw [← hqe] at hsel ⊢
      rw [if_neg hqn] at hsel ⊢
      exact hv q hq eid hsel

theorem applyTracePair_inv {s s2 : TreeSnapshot} {a b : Nat}
    (hc : nodesCoh s) (he : edgesCoh s) (hv : selValid s)
    (h : applyTracePair s a b = .ok s2) :
    nodesCoh s2 ∧ edgesCoh s2 ∧ selValid s2 := by
  unfold applyTracePair at h
  cases hf : (s.out_edges a).find? (fun e => decide (e.target = b)) with
  | none =>
      rw [hf] at h
      injection h with h2
      rw [← h2]
      exact ⟨hc, he, hv⟩
  | some e =>
      rw [hf] at h
      dsimp only at h
      by_cases hl : (dlookup s.nodes a).isSome
      · rw [if_pos hl] at h
        injection h with h2
        rw [← h2]
        exact setSelected_inv hc he hv (List.mem_of_find?_eq_some hf)
      · rw [if_neg hl] at h
        cases h

theorem applyTrace_inv :
    ∀ (l : List MCTSNode) (s s2 : TreeSnapshot),
      nodesCoh s → edgesCoh s → selValid s →
      applyTrace s l = .ok s2 →
      nodesCoh s2 ∧ edgesCoh s2 ∧ selValid s2 := by
  intro l
  induction l with
  | nil =>
      intro s s2 hc he hv h
      unfold applyTrace at h
      injection h with h2
      rw [← h2]
      exact ⟨hc, he, hv⟩
  | cons a rest ih =>
      intro s s2 hc he hv h
      cases rest with
      | nil =>
          unfold applyTrace at h
          injection h with h2
          rw [← h2]
          exact ⟨hc, he, hv⟩
      | cons b rest2 =>
          unfold applyTrace at h
          simp only [Bind.bind, Except.bind] at h
          cases hp : applyTracePair s a.id b.id with
          | error e => rw [hp] at h; cases h
          | ok smid =>
              rw [hp] at h
              dsimp only at h
              have hmid := applyTracePair_inv hc he hv hp
              exact ih smid s2 hmid.1 hmid.2.1 hmid.2.2 h

theorem applyMaxSelection_inv {s : TreeSnapshot} (key : String)
    (hc : nodesCoh s) (he : edgesCoh s) (hv : selValid s) :
    nodesCoh (applyMaxSelection s key) ∧ edgesCoh (applyMaxSelection s key) ∧
      selValid (applyMaxSelection s key) := by
  have hg : ∀ p : Nat × TreeSnapshot.Node,
      ((fun p : Nat × TreeSnapshot.Node =>
        if p.2.selected_edge.isNone && !(s.children p.2.id).isEmpty then
          (p.1, { p.2 with selected_edge :=
            (maxByKey (s.out_edges p.2.id) key).map (fun e => e.id) })
        else p) p).1 = p.1 := by
    intro p
    by_cases hp : p.2.selected_edge.isNone && !(s.children p.2.id).isEmpty
    · simp [hp]
    · simp [hp]
  refine ⟨⟨?_, ?_⟩, he, ?_⟩
  · intro p hp
    rcases List.mem_map.mp hp with ⟨q, hq, hqe⟩
    by_cases hcond : q.2.selected_edge.isNone && !(s.children q.2.id).isEmpty
    · rw [← hqe, if_pos hcond]
      exact hc.1 q hq
    · rw [← hqe, if_neg hcond]
      exact hc.1 q hq
  · unfold applyMaxSelection
    simp only
    rw [keys_map_keyfix _ hg]
    exact hc.2
  · intro p hp eid hsel
    rcases List.mem_map.mp hp with ⟨q, hq, hqe⟩
    by_cases hcond : q.2.selected_edge.isNone && !(s.children q.2.id).isEmpty
    · rw [← hqe, if_pos hcond] at hsel ⊢
      simp only at hsel ⊢
      cases hm : maxByKey (s.out_edges q.2.id) key with
      | none =>
          rw [hm] at hsel
          cases hsel
      | some e =>
          rw [hm] at hsel
          injection hsel with h2
          have hmem : e ∈ s.out_edges q.2.id := by
            rw [maxByKey_eq_specFirstMax] at hm
            exact specFirstMax_mem hm
          have hout := mem_out_edges hmem
          refine ⟨e, ?_, hout.2⟩
          rw [← h2]
          exact edge_lookup_of_mem he hout.1
    · rw [← hqe, if_neg hcond] at hsel ⊢
      exact hv q hq eid hsel

theorem init_inv {ns : List TreeSnapshot.Node} {es : List TreeSnapshot.Edge}
    {s : TreeSnapshot} (h : TreeSnapshot.init ns es = .ok s)
    (hsel : ∀ n ∈ ns, n.selected_edge = Option.none) :
    nodesCoh s ∧ edgesCoh s ∧ selValid s := by
  obtain ⟨hsn, hse, _, _⟩ := init_ok_inv h
  refine ⟨⟨?_, ?_⟩, ⟨?_, ?_⟩, ?_⟩
  · intro p hp
    exact (mem_dictBy (hsn ▸ hp)).2.symm
  · rw [hsn]
    exact keys_nodup_dictBy _ _
  · intro p hp
    exact (mem_dictBy (hse ▸ hp)).2.symm
  · rw [hse]
    exact keys_nodup_dictBy _ _
  · intro p hp eid hseleid
    have hmem := mem_dictBy (hsn ▸ hp)
    rw [hsel p.2 hmem.1] at hseleid
    cases hseleid

theorem mctsProcessStep_selValid (ndf : MCTSNode → Except VizError NodeData)
    (edf : MCTSNode → Except VizError EdgeData) (tr : Option (List (List MCTSNode)))
    (root : MCTSNode) (step : Nat) (s : TreeSnapshot)
    (h : mctsProcessStep ndf edf tr root step = .ok s) : selValid s := by
  unfold mctsProcessStep at h
  simp only [Bind.bind, Except.bind, Pure.pure, Except.pure] at h
  cases hw : allNodesMCTS ndf edf root [] [] with
  | error e => rw [hw] at h; cases h
  | ok out =>
      rw [hw] at h
      dsimp only at h
      cases hi : TreeSnapshot.init (out.1.map Prod.snd) out.2 with
      | error e => rw [hi] at h; cases h
      | ok tree =>
          rw [hi] at h
          dsimp only at h
          have hselw : ∀ n ∈ out.1.map Prod.snd, n.selected_edge = Option.none := by
            intro n hn
            rcases List.mem_map.mp hn with ⟨p, hp, hpe⟩
            rw [← hpe]
            exact allNodesMCTS_selNone ndf edf root [] [] out hw (by simp) p hp
          have hinv := init_inv hi hselw
          rcases tr with _ | tl
          · dsimp only at h
            injection h with h2
            rw [← h2]
            exact (applyMaxSelection_inv "Q" hinv.1 hinv.2.1 hinv.2.2).2.2
          · cases tl with
            | nil =>
                dsimp only at h
                injection h with h2
                rw [← h2]
                exact (applyMaxSelection_inv "Q" hinv.1 hinv.2.1 hinv.2.2).2.2
            | cons t ts =>
                dsimp only at h
                cases hg : (t :: ts).get? step with
                | none =>
                    rw [hg] at h
                    dsimp only at h
                    cases h
                | some trace =>
                    rw [hg] at h
                    dsimp only at h
                    cases ht : applyTrace tree trace with
                    | error e => rw [ht] at h; cases h
                    | ok tree2 =>
                        rw [ht] at h
                        dsimp only at h
                        injection h with h2
                        rw [← h2]
                        have hinv2 := applyTrace_inv trace tree tree2
                          hinv.1 hinv.2.1 hinv.2.2 ht
                        exact (applyMaxSelection_inv "Q" hinv2.1 hinv2.2.1 hinv2.2.2).2.2

theorem mctsSteps_selValid (ndf : MCTSNode → Except VizError NodeData)
    (edf : MCTSNode → Except VizError EdgeData) (tr : Option (List (List MCTSNode))) :
    ∀ (roots : List MCTSNode) (step : Nat) (ss : List TreeSnapshot),
      mctsSteps ndf edf tr roots step = .ok ss → ∀ s ∈ ss, selValid s := by
  intro roots
  induction roots with
  | nil =>
      intro step ss h s hs
      unfold mctsSteps at h
      injection h with h2
      rw [← h2] at hs
      cases hs
  | cons r rest ih =>
      intro step ss h s hs
      unfold mctsSteps at h
      simp only [Bind.bind, Except.bind, Pure.pure, Except.pure] at h
      cases hp : mctsProcessStep ndf edf tr r step with
      | error e => rw [hp] at h; cases h
      | ok s1 =>
          rw [hp] at h
          dsimp only at h
          cases hrest : mctsSteps ndf edf tr rest (step + 1) with
          | error e => rw [hrest] at h; cases h
          | ok ss2 =>
              rw [hrest] at h
              dsimp only at h
              injection h with h2
              rw [← h2] at hs
              rcases List.mem_cons.mp hs with hs2 | hs2
              · rw [hs2]
                exact mctsProcessStep_selValid ndf edf tr r step s1 hp
              · exact ih (step + 1) ss2 hrest s hs2

theorem from_bs_selValid (input : Sum BeamSearchResult (List BeamSearchResult))
    (ndf : Option (SearchTreeNode → Except VizError NodeData))
    (edf : Option (SearchTreeNode → Except VizError EdgeData)) (log : TreeLog)
    (h : TreeLog.from_beam_search_results input ndf edf = .ok log) :
    ∀ s ∈ log.snapshots, selValid s := by
  unfold TreeLog.from_beam_search_results at h
  simp only [Bind.bind, Except.bind, Pure.pure, Except.pure] at h
  rcases hfirst : (match input with | Sum.inl r => [r] | Sum.inr rs => rs) with _ | ⟨r, rest⟩
  · rw [hfirst] at h
    dsimp only at h
    cases h
  · rw [hfirst] at h
    dsimp only at h
    cases hw : allNodesBS (ndf.getD default_node_data_factory_bs)
        (edf.getD default_edge_data_factory_bs) r.tree [] [] with
    | error e => rw [hw] at h; cases h
    | ok out =>
        rw [hw] at h
        dsimp only at h
        cases hi : TreeSnapshot.init (out.1.map Prod.snd) out.2 with
        | error e => rw [hi] at h; cases h
        | ok tree =>
            rw [hi] at h
            dsimp only at h
            injection h with h2
            have hselw : ∀ n ∈ out.1.map Prod.snd, n.selected_edge = Option.none := by
              intro n hn
              rcases List.mem_map.mp hn with ⟨p, hp, hpe⟩
              rw [← hpe]
              exact allNodesBS_selNone _ _ r.tree [] [] out hw (by simp) p hp
            have hinv := init_inv hi hselw
            intro s hs
            rw [← h2] at hs
            simp only [List.mem_singleton] at hs
            rw [hs]
            exact (applyMaxSelection_inv "reward" hinv.1 hinv.2.1 hinv.2.2).2.2

theorem from_dfs_selValid (res : DFSResult)
    (ndf : Option (SearchTreeNode → Except VizError NodeData))
    (edf : Option (SearchTreeNode → Except VizError EdgeData)) (log : TreeLog)
    (h : TreeLog.from_dfs_results res ndf edf = .ok log) :
    ∀ s ∈ log.snapshots, selValid s := by
  unfold TreeLog.from_dfs_results at h
  simp only [Bind.bind, Except.bind, Pure.pure, Except.pure] at h
  cases hw : allNodesBS (ndf.getD default_node_data_factory_dfs)
      (edf.getD default_edge_data_factory_bs) res.tree_state [] [] with
  | error e => rw [hw] at h; cases h
  | ok out =>
      rw [hw] at h
      dsimp only at h
      cases hi : TreeSnapshot.init (out.1.map Prod.snd) out.2 with
      | error e => rw [hi] at h; cases h
      | ok tree =>
          rw [hi] at h
          dsimp only at h
          injection h with h2
          have hselw : ∀ n ∈ out.1.map Prod.snd, n.selected_edge = Option.none := by
            intro n hn
            rcases List.mem_map.mp hn with ⟨p, hp, hpe⟩
            rw [← hpe]
            exact allNodesBS_selNone _ _ res.tree_state [] [] out hw (by simp) p hp
          have hinv := init_inv hi hselw
          intro s hs
          rw [← h2] at hs
          simp only [List.mem_singleton] at hs
          rw [hs]
          exact (applyMaxSelection_inv "reward" hinv.1 hinv.2.1 hinv.2.2).2.2

theorem from_mcts_selValid (res : MCTSResult)
    (ndf : Option (MCTSNode → Except VizError NodeData))
    (edf : Option (MCTSNode → Except VizError EdgeData)) (log : TreeLog)
    (h : TreeLog.from_mcts_results res ndf edf = .ok log) :
    ∀ s ∈ log.snapshots, selValid s := by
  unfold TreeLog.from_mcts_results at h
  simp only [Bind.bind, Except.bind, Pure.pure, Except.pure] at h
  cases hss : mctsSteps (ndf.getD default_node_data_factory_mcts)
      (edf.getD default_edge_data_factory) res.trace_in_each_iter
      (match res.tree_state_after_each_iter with
        | Option.none => [res.tree_state]
        | some ts => ts) 0 with
  | error e => rw [hss] at h; cases h
  | ok ss =>
      rw [hss] at h
      dsimp only at h
      injection h with h2
      intro s hs
      rw [← h2] at hs
      exact mctsSteps_selValid _ _ _ _ 0 ss hss s hs

/-- C7: for every snapshot produced by any of the three adapters and every
node in it whose selected edge is set, an edge with that EdgeId is present
in the same snapshot's edge dictionary and its source equals the node's
id. -/
theorem c7 :
    (∀ (res : MCTSResult) (ndf : Option (MCTSNode → Except VizError NodeData))
        (edf : Option (MCTSNode → Except VizError EdgeData)) (log : TreeLog),
      TreeLog.from_mcts_results res ndf edf = .ok log →
      ∀ s ∈ log.snapshots, ∀ p ∈ s.nodes, ∀ eid, p.2.selected_edge = some eid →
        ∃ e, dlookup s.edges eid = some e ∧ e.source = p.2.id) ∧
    (∀ (input : Sum BeamSearchResult (List BeamSearchResult))
        (ndf : Option (SearchTreeNode → Except VizError NodeData))
        (edf : Option (SearchTreeNode → Except VizError EdgeData)) (log : TreeLog),
      TreeLog.from_beam_search_results input ndf edf = .ok log →
      ∀ s ∈ log.snapshots, ∀ p ∈ s.nodes, ∀ eid, p.2.selected_edge = some eid →
        ∃ e, dlookup s.edges eid = some e ∧ e.source = p.2.id) ∧
    (∀ (res : DFSResult) (ndf : Option (SearchTreeNode → Except VizError NodeData))
        (edf : Option (SearchTreeNode → Except VizError EdgeData)) (log : TreeLog),
      TreeLog.from_dfs_results res ndf edf = .ok log →
      ∀ s ∈ log.snapshots, ∀ p ∈ s.nodes, ∀ eid, p.2.selected_edge = some eid →
        ∃ e, dlookup s.edges eid = some e ∧ e.source = p.2.id) := by
  refine ⟨?_, ?_, ?_⟩
  · intro res ndf edf log h s hs
    exact from_mcts_selValid res ndf edf log h s hs
  · intro input ndf edf log h s hs
    exact from_bs_selValid input ndf edf log h s hs
  · intro res ndf edf log h s hs
    exact from_dfs_selValid res ndf edf log h s hs

/-- Concrete DFS output snapshot for the C7 witness. -/
def c7sW : TreeSnapshot :=
  ⟨[(0, ⟨0, [], some 0⟩), (1, ⟨1, [], Option.none⟩)],
   [(0, ⟨0, 0, 1, [("reward", JVal.num 1), ("action", JVal.str "a")]⟩)],
   [(1, 0)], [(0, [1])]⟩

/-- C7 witness: on a concrete two-node DFS conversion the root's selected
edge 0 is present in the snapshot and has source 0, the root's id. -/
theorem c7_witness :
    TreeLog.from_dfs_results
        ⟨SearchTreeNode.mk 0 StateVal.none [SearchTreeNode.mk 1 StateVal.none [] 1 "a"] 0 "r"⟩
        Option.none Option.none = .ok ⟨[c7sW]⟩ ∧
    c7sW ∈ (⟨[c7sW]⟩ : TreeLog).snapshots ∧
    (0, (⟨0, [], some 0⟩ : TreeSnapshot.Node)) ∈ c7sW.nodes ∧
    (∃ e, dlookup c7sW.edges 0 = some e ∧
      e.source = (⟨0, [], some 0⟩ : TreeSnapshot.Node).id) :=
  ⟨by decide, by decide, by decide,
    c7.2.2 ⟨SearchTreeNode.mk 0 StateVal.none [SearchTreeNode.mk 1 StateVal.none [] 1 "a"] 0 "r"⟩
      Option.none Option.none ⟨[c7sW]⟩ (by decide) c7sW (by decide)
      (0, ⟨0, [], some 0⟩) (by decide) 0 rfl⟩
